import Mathlib

/-!
# The task state machine of `src/libserver/task.c`

A shallow embedding of `rspamd_task_select_processing_stage` and
`rspamd_task_process`, followed by the properties proved about them.

* Machine integers are natural numbers. The only operation of the two
  functions that can leave the range of its C type is `1 << st` on a `gint`;
  it is undefined for `st ≥ 31` and the embedding then yields `none`.
* The stage handlers (`rspamd_message_parse`, the Lua pre/post filters, the
  symbols cache, the classifier, the composites) are not part of the two
  functions: they are parameters, arbitrary functions on the task.
* `rspamd_task_process` is tail recursive and, with arbitrary handlers, need
  not terminate: the embedding counts the tail calls it may still make.
* Every dispatch of a stage handler is recorded, with the task as the handler
  received it, in a trace that is returned next to the result.
-/

namespace Rspamd

/-! ## Constants of `task.h` -/

/-- The constants of `task.h` that `task.c` refers to by name. `task.h` is not
among the sources, so their values are parameters of the development. -/
structure TaskConsts where
  RSPAMD_TASK_STAGE_READ_MESSAGE : Nat
  RSPAMD_TASK_STAGE_PRE_FILTERS : Nat
  RSPAMD_TASK_STAGE_FILTERS : Nat
  RSPAMD_TASK_STAGE_CLASSIFIERS : Nat
  RSPAMD_TASK_STAGE_COMPOSITES : Nat
  RSPAMD_TASK_STAGE_POST_FILTERS : Nat
  RSPAMD_TASK_STAGE_DONE : Nat
  RSPAMD_TASK_FLAG_PROCESSING : Nat
  RSPAMD_TASK_FLAG_SKIP : Nat
  deriving DecidableEq, Repr

/-- The stage constants are single bits of a `gint`, in the order in which the
pipeline runs its stages: read-message, pre-filters, filters, classifiers,
composites, post-filters, done. The seven numbers are the bit positions. -/
def TaskConsts.StagesAt (c : TaskConsts) (r p f k m o d : Nat) : Prop :=
  c.RSPAMD_TASK_STAGE_READ_MESSAGE = 2 ^ r ∧
  c.RSPAMD_TASK_STAGE_PRE_FILTERS = 2 ^ p ∧
  c.RSPAMD_TASK_STAGE_FILTERS = 2 ^ f ∧
  c.RSPAMD_TASK_STAGE_CLASSIFIERS = 2 ^ k ∧
  c.RSPAMD_TASK_STAGE_COMPOSITES = 2 ^ m ∧
  c.RSPAMD_TASK_STAGE_POST_FILTERS = 2 ^ o ∧
  c.RSPAMD_TASK_STAGE_DONE = 2 ^ d ∧
  r < p ∧ p < f ∧ f < k ∧ k < m ∧ m < o ∧ o < d ∧ d ≤ 30

/-- The two task flags are non-zero 32-bit masks without a common bit. -/
def TaskConsts.FlagsOk (c : TaskConsts) : Prop :=
  c.RSPAMD_TASK_FLAG_PROCESSING ≠ 0 ∧
  c.RSPAMD_TASK_FLAG_PROCESSING < 2 ^ 32 ∧
  c.RSPAMD_TASK_FLAG_SKIP < 2 ^ 32 ∧
  c.RSPAMD_TASK_FLAG_PROCESSING &&& c.RSPAMD_TASK_FLAG_SKIP = 0

/-- Modelled from the spec: the values of the stage and flag constants of
`task.h`, which is not among the sources. One bit per stage in the order of the
pipeline (parse, pre-filters, filters, classifiers, composites, post-filters,
done), and one bit each for the flags `processing` and `skipped`. Used only to
evaluate the functions on concrete inputs. -/
def sampleConsts : TaskConsts where
  RSPAMD_TASK_STAGE_READ_MESSAGE := 1
  RSPAMD_TASK_STAGE_PRE_FILTERS := 2
  RSPAMD_TASK_STAGE_FILTERS := 4
  RSPAMD_TASK_STAGE_CLASSIFIERS := 8
  RSPAMD_TASK_STAGE_COMPOSITES := 16
  RSPAMD_TASK_STAGE_POST_FILTERS := 32
  RSPAMD_TASK_STAGE_DONE := 64
  RSPAMD_TASK_FLAG_PROCESSING := 1
  RSPAMD_TASK_FLAG_SKIP := 2

/-! ## The task -/

/-- The fields of `struct rspamd_task` that `rspamd_task_process` reads or
writes. `s` is the event session, represented by what
`rspamd_session_events_pending (task->s)` reports: the number of pending
events. `checkpoint` is a pointer, `none` being `NULL`. Everything else in the
task (message, results, ...) is `rest`, which only the handlers see. -/
structure Task (ρ : Type) where
  processed_stages : Nat
  flags : Nat
  checkpoint : Option Nat
  s : Nat
  rest : ρ
  deriving DecidableEq, Repr

/-- Modelled from the spec: the macro `RSPAMD_TASK_IS_PROCESSED` of `task.h`
(not among the sources): "`DONE` appears in `processed_stages`". -/
def RSPAMD_TASK_IS_PROCESSED {ρ : Type} (c : TaskConsts) (task : Task ρ) : Bool :=
  task.processed_stages &&& c.RSPAMD_TASK_STAGE_DONE != 0

/-- Modelled from the spec: the macro `RSPAMD_TASK_IS_SKIPPED` of `task.h`
(not among the sources): "the `SKIPPED` flag is set". -/
def RSPAMD_TASK_IS_SKIPPED {ρ : Type} (c : TaskConsts) (task : Task ρ) : Bool :=
  task.flags &&& c.RSPAMD_TASK_FLAG_SKIP != 0

/-- The test `task->flags & RSPAMD_TASK_FLAG_PROCESSING` of
`rspamd_task_process`. -/
def inProcessing {ρ : Type} (c : TaskConsts) (task : Task ρ) : Bool :=
  task.flags &&& c.RSPAMD_TASK_FLAG_PROCESSING != 0

/-! ## Stage handlers -/

/-- The stage handlers that the `switch` of `rspamd_task_process` calls. -/
inductive StageHandler where
  | rspamd_message_parse
  | rspamd_lua_call_pre_filters
  | rspamd_process_filters
  | rspamd_stat_classify
  | rspamd_make_composites
  | rspamd_lua_call_post_filters
  deriving DecidableEq, Repr

/-- The external functions called by the `switch`, as functions on the task.
Those whose return value is inspected also return it: `rspamd_message_parse`
and `rspamd_symbols_cache_process_symbols` return a `gboolean`;
for `rspamd_stat_classify` the boolean tells whether it returned
`RSPAMD_STAT_PROCESS_ERROR`. -/
structure Handlers (ρ : Type) where
  rspamd_message_parse : Task ρ → Bool × Task ρ
  rspamd_lua_call_pre_filters : Task ρ → Task ρ
  rspamd_symbols_cache_process_symbols : Task ρ → Bool × Task ρ
  rspamd_stat_classify : Task ρ → Bool × Task ρ
  rspamd_make_composites : Task ρ → Task ρ
  rspamd_lua_call_post_filters : Task ρ → Task ρ

/-- The task a handler leaves behind. -/
def Handlers.run {ρ : Type} (H : Handlers ρ) : StageHandler → Task ρ → Task ρ
  | .rspamd_message_parse, t => (H.rspamd_message_parse t).2
  | .rspamd_lua_call_pre_filters, t => H.rspamd_lua_call_pre_filters t
  | .rspamd_process_filters, t => (H.rspamd_symbols_cache_process_symbols t).2
  | .rspamd_stat_classify, t => (H.rspamd_stat_classify t).2
  | .rspamd_make_composites, t => H.rspamd_make_composites t
  | .rspamd_lua_call_post_filters, t => H.rspamd_lua_call_post_filters t

/-- One dispatch: which handler was called, and on which task. -/
abbrev Call (ρ : Type) := StageHandler × Task ρ

/-! ## `rspamd_task_select_processing_stage` -/

/-- The loop `for (st = 1; mask != 1; st ++) mask = (unsigned int)mask >> 1;`.
The first argument bounds the number of iterations; the loop is entered with
`mask ≠ 0` and halves `mask`, so `mask` iterations are never used up. -/
def selectLoop : Nat → Nat → Nat → Nat
  | 0, _, st => st
  | n + 1, mask, st => if mask = 1 then st else selectLoop n (mask >>> 1) (st + 1)

/-- The exponent `st` that `rspamd_task_select_processing_stage` computes from
`processed_stages` before `st = 1 << st`. -/
def stageIndex (processed_stages : Nat) : Nat :=
  if processed_stages = 0 then 0 else selectLoop processed_stages processed_stages 1

/-- Body of `rspamd_task_select_processing_stage` on the one field it touches:
from `processed_stages` to the returned stage and the new `processed_stages`.
`none` is the undefined shift `1 << st` with `st ≥ 31`. The first argument
bounds the depth of the recursion. -/
def selectStage (c : TaskConsts) (stages : Nat) : Nat → Nat → Option (Nat × Nat)
  | 0, _ => none
  | n + 1, processed_stages =>
    let st := stageIndex processed_stages
    if 31 ≤ st then none
    else
      let st := 1 <<< st
      if stages &&& st ≠ 0 then some (st, processed_stages)
      else if st < c.RSPAMD_TASK_STAGE_DONE then
        -- We assume that the stage that was not requested is done
        selectStage c stages n (processed_stages ||| st)
      else some (c.RSPAMD_TASK_STAGE_DONE, processed_stages)

/-- The function `rspamd_task_select_processing_stage (task, stages)`: the
returned stage and the task with its `processed_stages` updated. Every
recursive call is made with a longer `processed_stages` and the shift is
undefined from length 31 on, so a depth of 32 is never reached. -/
def rspamd_task_select_processing_stage {ρ : Type} (c : TaskConsts) (task : Task ρ)
    (stages : Nat) : Option (Nat × Task ρ) :=
  (selectStage c stages 32 task.processed_stages).map
    fun r => (r.1, { task with processed_stages := r.2 })

/-! ## `rspamd_task_process` -/

/-- What a call of `rspamd_task_process` yields: the returned `gboolean`, the
task as the call leaves it, and the handlers dispatched, in order. -/
structure Outcome (ρ : Type) where
  ret : Bool
  task : Task ρ
  trace : List (Call ρ)
  deriving DecidableEq

/-- The `switch (st)` of `rspamd_task_process`: the value of `ret`, the task
after the case, and the handler called (if any). -/
def dispatch {ρ : Type} (c : TaskConsts) (H : Handlers ρ) (st : Nat) (task : Task ρ) :
    Bool × Task ρ × List (Call ρ) :=
  if st = c.RSPAMD_TASK_STAGE_READ_MESSAGE then
    let r := H.rspamd_message_parse task
    (r.1, r.2, [(.rspamd_message_parse, task)])
  else if st = c.RSPAMD_TASK_STAGE_PRE_FILTERS then
    (true, H.rspamd_lua_call_pre_filters task, [(.rspamd_lua_call_pre_filters, task)])
  else if st = c.RSPAMD_TASK_STAGE_FILTERS then
    let r := H.rspamd_symbols_cache_process_symbols task
    (r.1, r.2, [(.rspamd_process_filters, task)])
  else if st = c.RSPAMD_TASK_STAGE_CLASSIFIERS then
    -- an error of the classifier is logged, `ret` stays TRUE
    (true, (H.rspamd_stat_classify task).2, [(.rspamd_stat_classify, task)])
  else if st = c.RSPAMD_TASK_STAGE_COMPOSITES then
    (true, H.rspamd_make_composites task, [(.rspamd_make_composites, task)])
  else if st = c.RSPAMD_TASK_STAGE_POST_FILTERS then
    (true, H.rspamd_lua_call_post_filters task, [(.rspamd_lua_call_post_filters, task)])
  else if st = c.RSPAMD_TASK_STAGE_DONE then
    (true, { task with
      processed_stages := task.processed_stages ||| c.RSPAMD_TASK_STAGE_DONE }, [])
  else
    -- TODO: not implemented stage
    (true, task, [])

/-- The statement `if (RSPAMD_TASK_IS_SKIPPED (task)) task->processed_stages |=
RSPAMD_TASK_STAGE_DONE;`. -/
def markSkipped {ρ : Type} (c : TaskConsts) (task : Task ρ) : Task ρ :=
  if RSPAMD_TASK_IS_SKIPPED c task then
    { task with processed_stages := task.processed_stages ||| c.RSPAMD_TASK_STAGE_DONE }
  else task

/-- The statement `task->flags &= ~RSPAMD_TASK_FLAG_PROCESSING;` on a 32-bit
`flags`. -/
def clearProcessing {ρ : Type} (c : TaskConsts) (task : Task ρ) : Task ρ :=
  { task with flags := task.flags &&& (4294967295 ^^^ c.RSPAMD_TASK_FLAG_PROCESSING) }

/-- The body of `rspamd_task_process (task, stages)`; `self` stands for the
tail call `rspamd_task_process (task, stages)` at its end. -/
def processBody {ρ : Type} (c : TaskConsts) (H : Handlers ρ)
    (self : Task ρ → Option (Outcome ρ)) (stages : Nat) (task : Task ρ) :
    Option (Outcome ρ) :=
  -- Avoid nested calls
  if inProcessing c task then some ⟨true, task, []⟩
  else if RSPAMD_TASK_IS_PROCESSED c task then some ⟨true, task, []⟩
  else
    let task := { task with flags := task.flags ||| c.RSPAMD_TASK_FLAG_PROCESSING }
    match rspamd_task_select_processing_stage c task stages with
    | none => none
    | some (st, task) =>
      let r := dispatch c H st task
      let ret := r.1
      let task := markSkipped c r.2.1
      let task := clearProcessing c task
      if !ret || RSPAMD_TASK_IS_PROCESSED c task then some ⟨ret, task, r.2.2⟩
      else if task.s ≠ 0 then
        -- We have events pending, so we consider this stage as incomplete
        some ⟨ret, task, r.2.2⟩
      else
        -- Mark the current stage as done and go to the next stage
        let task := { task with
          processed_stages := task.processed_stages ||| st, checkpoint := none }
        (self task).map fun o => { o with trace := r.2.2 ++ o.trace }

/-- The function `rspamd_task_process (task, stages)`. The first argument is
the number of tail calls the call may still make; `none` means that it needed
more, or that the stage selection hit the undefined shift. -/
def rspamd_task_process {ρ : Type} (c : TaskConsts) (H : Handlers ρ) :
    Nat → Nat → Task ρ → Option (Outcome ρ)
  | 0, stages, task => processBody c H (fun _ => none) stages task
  | n + 1, stages, task => processBody c H (rspamd_task_process c H n stages) stages task

/-! ## Sample handlers, to evaluate the functions -/

/-- Handlers that succeed and leave the task as it is. -/
def idleHandlers : Handlers Unit where
  rspamd_message_parse := fun t => (true, t)
  rspamd_lua_call_pre_filters := fun t => t
  rspamd_symbols_cache_process_symbols := fun t => (true, t)
  rspamd_stat_classify := fun t => (false, t)
  rspamd_make_composites := fun t => t
  rspamd_lua_call_post_filters := fun t => t

/-- A task that has not been processed at all. -/
def newTask : Task Unit := ⟨0, 0, none, 0, ()⟩

/-! ## Handler assumptions used by the properties -/

/-- No handler writes `processed_stages`. -/
def Handlers.KeepStages {ρ : Type} (H : Handlers ρ) : Prop :=
  ∀ (h : StageHandler) (t : Task ρ), (H.run h t).processed_stages = t.processed_stages

/-- The handler that the `switch` calls for a stage, if any. -/
def handlerOf (c : TaskConsts) (st : Nat) : Option StageHandler :=
  if st = c.RSPAMD_TASK_STAGE_READ_MESSAGE then some .rspamd_message_parse
  else if st = c.RSPAMD_TASK_STAGE_PRE_FILTERS then some .rspamd_lua_call_pre_filters
  else if st = c.RSPAMD_TASK_STAGE_FILTERS then some .rspamd_process_filters
  else if st = c.RSPAMD_TASK_STAGE_CLASSIFIERS then some .rspamd_stat_classify
  else if st = c.RSPAMD_TASK_STAGE_COMPOSITES then some .rspamd_make_composites
  else if st = c.RSPAMD_TASK_STAGE_POST_FILTERS then some .rspamd_lua_call_post_filters
  else none

/-- The value the `switch` leaves in `ret` after calling a handler. -/
def retOf {ρ : Type} (H : Handlers ρ) : StageHandler → Task ρ → Bool
  | .rspamd_message_parse, t => (H.rspamd_message_parse t).1
  | .rspamd_process_filters, t => (H.rspamd_symbols_cache_process_symbols t).1
  | _, _ => true

/-- The task after the `switch`, the `SKIPPED` test and the reset of
`PROCESSING`. -/
def afterSwitch {ρ : Type} (c : TaskConsts) (H : Handlers ρ) (st : Nat) (t1 : Task ρ) :
    Task ρ :=
  clearProcessing c (markSkipped c (dispatch c H st t1).2.1)

/-- The task with which the tail call is made. -/
def nextTask {ρ : Type} (c : TaskConsts) (H : Handlers ρ) (st : Nat) (t1 : Task ρ) :
    Task ρ :=
  { afterSwitch c H st t1 with
    processed_stages := (afterSwitch c H st t1).processed_stages ||| st
    checkpoint := none }

/-- The reading of "the lowest stage bit that is not set in
`processed_stages` and is set in the requested mask": `st` is the bit `2 ^ j`
for the least position `j` that is unprocessed and requested. -/
def LowestRequested (processed_stages stages st : Nat) : Prop :=
  ∃ j, st = 2 ^ j ∧ processed_stages.testBit j = false ∧ stages.testBit j = true ∧
    ∀ i, i < j → ¬ (processed_stages.testBit i = false ∧ stages.testBit i = true)

/-- A new task whose event session has one pending event. -/
def pendingTask : Task Unit := ⟨0, 0, none, 1, ()⟩

/-- Handlers like `idleHandlers`, except that the message parser fails. -/
def failingParse : Handlers Unit :=
  { idleHandlers with rspamd_message_parse := fun t => (false, t) }

/-- Handlers like `idleHandlers`, except that the pre-filters set the
`SKIPPED` flag (bit 1 in `sampleConsts`). -/
def skippingPreFilters : Handlers Unit :=
  { idleHandlers with
    rspamd_lua_call_pre_filters := fun t => { t with flags := t.flags ||| 2 } }

/-- A task with bit 0 of `processed_stages` set, on which the `SKIPPED` flag
(bit 1 in `sampleConsts`) has been set since. -/
def skippedTask : Task Unit := ⟨1, 2, none, 0, ()⟩

/-- Every handler whose result is inspected reports success. -/
def Handlers.Succeed {ρ : Type} (H : Handlers ρ) : Prop :=
  ∀ (h : StageHandler) (t : Task ρ), retOf H h t = true

/-- Every handler leaves no event pending: called on a task whose event
session has no pending event, it returns with none pending. -/
def Handlers.NoPending {ρ : Type} (H : Handlers ρ) : Prop :=
  ∀ (h : StageHandler) (t : Task ρ), t.s = 0 → (H.run h t).s = 0

/-- No handler sets the `SKIPPED` flag. -/
def Handlers.NeverSkip {ρ : Type} (c : TaskConsts) (H : Handlers ρ) : Prop :=
  ∀ (h : StageHandler) (t : Task ρ),
    RSPAMD_TASK_IS_SKIPPED c t = false → RSPAMD_TASK_IS_SKIPPED c (H.run h t) = false

/-- The handlers whose stage bit is at position `i` or above, in the order of
their positions `r < p < f < k < m < o`. -/
def traceFrom (r p f k m o i : Nat) : List StageHandler :=
  (if i ≤ r then [StageHandler.rspamd_message_parse] else []) ++
  (if i ≤ p then [StageHandler.rspamd_lua_call_pre_filters] else []) ++
  (if i ≤ f then [StageHandler.rspamd_process_filters] else []) ++
  (if i ≤ k then [StageHandler.rspamd_stat_classify] else []) ++
  (if i ≤ m then [StageHandler.rspamd_make_composites] else []) ++
  (if i ≤ o then [StageHandler.rspamd_lua_call_post_filters] else [])

/-- Handlers like `idleHandlers`, except that the symbols cache reports
failure for the filters stage. -/
def failingFilters : Handlers Unit :=
  { idleHandlers with rspamd_symbols_cache_process_symbols := fun t => (false, t) }

/-- The two ways in which `rspamd_task_reply` answers. -/
inductive Reply where
  | fin_callback
  | rspamd_protocol_write_reply
  deriving DecidableEq, Repr

/-- The function `rspamd_task_reply`: the reply it sends. `fin_callback` tells
whether `task->fin_callback` is set; the field is part of `rest`. -/
def rspamd_task_reply {ρ : Type} (fin_callback : ρ → Bool) (task : Task ρ) : Reply :=
  if fin_callback task.rest then Reply.fin_callback else Reply.rspamd_protocol_write_reply

/-- What a call of `rspamd_task_fin` yields: the returned `gboolean`, the task
and the replies sent, in order. -/
structure FinOutcome (ρ : Type) where
  ret : Bool
  task : Task ρ
  replies : List Reply
  deriving DecidableEq

/-- The function `rspamd_task_fin (arg)`. `RSPAMD_TASK_PROCESS_ALL` is a macro
of `task.h`, not among the sources: the mask is the parameter `all`. The
number is the bound on the tail calls of `rspamd_task_process`. -/
def rspamd_task_fin {ρ : Type} (c : TaskConsts) (H : Handlers ρ) (fin_callback : ρ → Bool)
    (all : Nat) (n : Nat) (task : Task ρ) : Option (FinOutcome ρ) :=
  -- Task is already finished or skipped
  if RSPAMD_TASK_IS_PROCESSED c task then
    some ⟨true, task, [rspamd_task_reply fin_callback task]⟩
  else
    match rspamd_task_process c H n all task with
    | none => none
    | some o =>
      if !o.ret then some ⟨true, o.task, [rspamd_task_reply fin_callback o.task]⟩
      else if RSPAMD_TASK_IS_PROCESSED c o.task then
        some ⟨true, o.task, [rspamd_task_reply fin_callback o.task]⟩
      else
        -- One more iteration
        some ⟨false, o.task, []⟩

/-- The bit position of the stage of a handler, the positions being
`r p f k m o` as in `StagesAt`. -/
def stagePos (r p f k m o : Nat) : StageHandler → Nat
  | .rspamd_message_parse => r
  | .rspamd_lua_call_pre_filters => p
  | .rspamd_process_filters => f
  | .rspamd_stat_classify => k
  | .rspamd_make_composites => m
  | .rspamd_lua_call_post_filters => o

/-! ## The regexp cache of a task -/

/-- The field `task->re_cache`, a `GHashTable` keyed by the text of the regexp
(`rspamd_str_hash`, `rspamd_str_equal`), as what `g_hash_table_lookup` returns
for a key: the stored pointer, `0` being `NULL` (no entry). -/
abbrev ReCache := String → Nat

/-- The library call `g_hash_table_insert`. -/
def g_hash_table_insert (table : ReCache) (key : String) (value : Nat) : ReCache :=
  fun k => if k = key then value else table k

/-- The constant `static const guint32 mask = 1 << 31;` of the two cache
functions. -/
def re_cache_mask : Nat := 2 ^ 31

/-- The expression `GPOINTER_TO_INT (p) & ~mask` as a `guint`: the low 32 bits
of the pointer without bit 31. -/
def re_cache_value (p : Nat) : Nat :=
  (p % 2 ^ 32) &&& (4294967295 ^^^ re_cache_mask)

/-- The function `rspamd_task_re_cache_add (task, re, value)`: the value
returned and the new cache. `value` is a `guint`, hence taken modulo `2 ^ 32`.
`NO_VALUE` is the constant `RSPAMD_TASK_CACHE_NO_VALUE` of `task.h`, which is
not among the sources. -/
def rspamd_task_re_cache_add (NO_VALUE : Nat) (re_cache : ReCache) (re : String)
    (value : Nat) : Nat × ReCache :=
  let p := re_cache re
  let ret := if p ≠ 0 then re_cache_value p else NO_VALUE
  (ret, g_hash_table_insert re_cache re ((value % 2 ^ 32) ||| re_cache_mask))

/-- The function `rspamd_task_re_cache_check (task, re)`. -/
def rspamd_task_re_cache_check (NO_VALUE : Nat) (re_cache : ReCache) (re : String) : Nat :=
  let p := re_cache re
  if p ≠ 0 then re_cache_value p else NO_VALUE

/-! ## `lua_sqlite3.c`: binding of the query arguments -/

/-- A value on the Lua stack, as far as `lua_sqlite3_bind_statements` looks at
it. For a number, `integral` is the outcome of the test
`n == (gdouble)((gint64)n)` and `n` stands for its value. `other` is any type
but `LUA_TNUMBER` and `LUA_TSTRING` (also `LUA_TNONE`, a position above the
top). -/
inductive LuaValue where
  | number (integral : Bool) (n : Int)
  | string (s : String)
  | other
  deriving DecidableEq, Repr

/-- One call of the sqlite3 API made while binding: `sqlite3_bind_int64`,
`sqlite3_bind_double` or `sqlite3_bind_text` on parameter number `num`. -/
inductive SqlBind where
  | int64 (num : Nat) (n : Int)
  | double (num : Nat) (n : Int)
  | text (num : Nat) (s : String)
  deriving DecidableEq, Repr

/-- The value at the Lua stack position `i` (positions start at 1). -/
def lua_at (L : List LuaValue) (i : Nat) : LuaValue :=
  if i = 0 then LuaValue.other else L.getD (i - 1) LuaValue.other

/-- The loop `for (i = start; i <= end; i ++)` of
`lua_sqlite3_bind_statements`, with its counter `num`; the first argument is
the number of iterations left. -/
def bindLoop (L : List LuaValue) : Nat → Nat → Nat → List SqlBind
  | 0, _, _ => []
  | left + 1, i, num =>
    match lua_at L i with
    | .number true n => SqlBind.int64 num n :: bindLoop L left (i + 1) (num + 1)
    | .number false n => SqlBind.double num n :: bindLoop L left (i + 1) (num + 1)
    | .string s => SqlBind.text num s :: bindLoop L left (i + 1) (num + 1)
    | .other => bindLoop L left (i + 1) num

/-- The function `lua_sqlite3_bind_statements (L, start, end, stmt)`: the bind
calls it makes on `stmt`, in order; `none` when the `g_assert` fails. -/
def lua_sqlite3_bind_statements (L : List LuaValue) (start end_ : Nat) :
    Option (List SqlBind) :=
  if start < end_ ∧ start > 0 ∧ end_ > 0 then
    some (bindLoop L (end_ + 1 - start) start 1)
  else none

/-- The part of `lua_sqlite3_sql` and of `lua_sqlite3_rows` between
`sqlite3_prepare_v2` and the execution of the statement, for a call
`db:sql (query, ...)` whose database and query are valid and whose query
prepares: position 1 of the stack is the database, position 2 the query and
the arguments follow. The result is the bind calls made. -/
def lua_sqlite3_sql_binds (L : List LuaValue) : Option (List SqlBind) :=
  let top := L.length
  if top > 2 then
    -- Push additional arguments to sqlite3
    lua_sqlite3_bind_statements L 2 top
  else some []

/-- The value that the prepared statement holds for parameter `?k` after a
sequence of bind calls: that of the last call made for number `k`. -/
def boundTo (binds : List SqlBind) (k : Nat) : Option SqlBind :=
  (binds.reverse.find? fun b =>
    match b with
    | .int64 num _ => num == k
    | .double num _ => num == k
    | .text num _ => num == k)

/-- The Lua stack of the documented call
`db:sql ([[ INSERT INTO x VALUES (?1, ?2); ]], 1, 'test')`. -/
def documentedCall : List LuaValue :=
  [.other, .string " INSERT INTO x VALUES (?1, ?2); ", .number true 1, .string "test"]

/-! ## `rspamd_task_load_message` -/

/-- The constants of `task.h` used by `rspamd_task_load_message`; `task.h` is
not among the sources, so their values are parameters. -/
structure LoadConsts where
  RSPAMD_TASK_FLAG_FILE : Nat
  RSPAMD_TASK_FLAG_HAS_CONTROL : Nat
  deriving DecidableEq, Repr

/-- The fields of `struct rspamd_task` that `rspamd_task_load_message` reads
or writes: `flags`, `msg.start` (an address), `msg.len`, `message_len` and the
error slot `err` (`none` being `NULL`). Everything else is `rest`. -/
structure LoadTask (ρ : Type) where
  flags : Nat
  msg_start : Nat
  msg_len : Nat
  message_len : Nat
  err : Option String
  rest : ρ
  deriving DecidableEq, Repr

/-- What the system calls of the file branch come to, for the path taken from
the message: `access` or `stat` fails, `open` fails, `mmap` fails, or the file
is mapped at `map` with size `st_size`. -/
inductive FileResult where
  | invalid
  | cannot_open
  | cannot_mmap
  | mapped (map : Nat) (st_size : Nat)
  deriving DecidableEq, Repr

/-- The external functions that `rspamd_task_load_message` calls. `μ` is the
type of the HTTP message. -/
structure LoadEnv (ρ μ : Type) where
  rspamd_protocol_handle_headers : LoadTask ρ → μ → LoadTask ρ
  file : LoadTask ρ → FileResult
  ucl_parser_add_chunk : LoadTask ρ → Nat → Bool
  rspamd_protocol_handle_control : LoadTask ρ → LoadTask ρ

/-- The library call `g_set_error (&err, ...)`: it fills an empty slot and
leaves a slot that is set as it is. -/
def g_set_error (err : Option String) (message : String) : Option String :=
  match err with
  | none => some message
  | some e => some e

/-- The statement `if (msg) rspamd_protocol_handle_headers (task, msg);`: the
task on which `rspamd_task_load_message` works after the headers of the HTTP
message, if there is one, have been handled. -/
def afterHeaders {ρ μ : Type} (E : LoadEnv ρ μ) (task : LoadTask ρ) (msg : Option μ) :
    LoadTask ρ :=
  match msg with
  | some m => E.rspamd_protocol_handle_headers task m
  | none => task

/-- The function `rspamd_task_load_message (task, msg, start, len)`: the
returned `gboolean` and the task. `none` is the failed
`g_assert (task->msg.len > 0)`. `control_len` is a `guint`, so the difference
is taken modulo `2 ^ 32`; `msg.len` is taken to be 64 bits wide. -/
def rspamd_task_load_message {ρ μ : Type} (k : LoadConsts) (E : LoadEnv ρ μ)
    (task : LoadTask ρ) (msg : Option μ) (start len : Nat) : Option (Bool × LoadTask ρ) :=
  let task := afterHeaders E task msg
  if task.flags &&& k.RSPAMD_TASK_FLAG_FILE ≠ 0 then
    if task.msg_len = 0 then none
    else
      match E.file task with
      | .invalid => some (false, { task with err := g_set_error task.err "Invalid file" })
      | .cannot_open =>
        some (false, { task with err := g_set_error task.err "Cannot open file" })
      | .cannot_mmap =>
        some (false, { task with err := g_set_error task.err "Cannot mmap file" })
      | .mapped map st_size => some (true, { task with msg_start := map, msg_len := st_size })
  else
    let task := { task with msg_start := start, msg_len := len }
    if task.msg_len = 0 then
      some (false, { task with err := g_set_error task.err "Invalid length" })
    else if task.flags &&& k.RSPAMD_TASK_FLAG_HAS_CONTROL ≠ 0 then
      -- We have control chunk, so we need to process it separately
      if task.msg_len < task.message_len then
        some (false, { task with err := g_set_error task.err "Invalid length" })
      else
        let control_len := (task.msg_len - task.message_len) % 2 ^ 32
        if control_len > 0 then
          let task :=
            if E.ucl_parser_add_chunk task control_len then
              E.rspamd_protocol_handle_control task
            else task
          some (true, { task with
            msg_start := task.msg_start + control_len
            msg_len := (task.msg_len + 2 ^ 64 - control_len) % 2 ^ 64 })
        else some (true, task)
    else some (true, task)

/-- Sample constants for `rspamd_task_load_message`, to evaluate it. -/
def sampleLoadConsts : LoadConsts := ⟨1, 2⟩

/-- A sample environment: no file can be read, the control chunk parses and
its handling leaves the task as it is. -/
def sampleLoadEnv : LoadEnv Unit Unit where
  rspamd_protocol_handle_headers := fun t _ => t
  file := fun _ => FileResult.invalid
  ucl_parser_add_chunk := fun _ _ => true
  rspamd_protocol_handle_control := fun t => t

/-! ## The symbols cache runtime

Only `symbols_cache.h` is among the sources: the scheduler itself
(`symbols_cache.c`) is modelled from section 4.4 of the spec. -/

/-- The `enum rspamd_symbol_type` of `symbols_cache.h`. -/
inductive rspamd_symbol_type where
  | SYMBOL_TYPE_NORMAL
  | SYMBOL_TYPE_VIRTUAL
  | SYMBOL_TYPE_CALLBACK
  | SYMBOL_TYPE_GHOST
  | SYMBOL_TYPE_SKIPPED
  | SYMBOL_TYPE_COMPOSITE
  | SYMBOL_TYPE_FINE
  deriving DecidableEq, Repr

/-- Modelled from the spec: a symbol descriptor of `symbols_cache.c` (not among
the sources), reduced to its type and its "declared dependencies (by name,
resolved post-load to ids)". -/
structure CacheItem where
  type : rspamd_symbol_type
  deps : List Nat
  deriving DecidableEq, Repr

/-- Modelled from the spec: the symbol cache of `symbols_cache.c` (not among
the sources): the "vector of symbol descriptors indexed by id" and "the
execution order". -/
structure SymbolsCache where
  items : List CacheItem
  order : List Nat
  deriving DecidableEq, Repr

/-- The descriptor of the symbol `id`. -/
def SymbolsCache.item (cache : SymbolsCache) (id : Nat) : CacheItem :=
  cache.items.getD id ⟨.SYMBOL_TYPE_NORMAL, []⟩

/-- What the scheduler observes of one run of a symbol callback: whether the
callback activated its symbol (called insert_result) and whether "the event
session's counter increased inside the callback". -/
structure CallbackResult where
  activated : Bool
  pending : Bool
  deriving DecidableEq, Repr

/-- Modelled from the spec: the per-task state of the scheduler in
`symbols_cache.c` (not among the sources): "cursor into the ordered vector, a
bitset of already executed symbol ids, and a waiting-list for symbols blocked
on unfinished dependencies", the symbols activated so far, whether the current
pass has made progress, and whether the filters stage is complete. `log`
records the callbacks invoked, in the order of their invocation. -/
structure CacheCheckpoint where
  cursor : Nat
  executed : List Nat
  waiting : List Nat
  activated : List Nat
  progress : Bool
  complete : Bool
  log : List Nat
  deriving DecidableEq, Repr

/-- Modelled from the spec: steps 2 to 5 of the per-task algorithm of
`symbols_cache.c` (not among the sources), for one symbol. A ghost or virtual
symbol is skipped; a fine symbol is deferred to the waiting list unless
another symbol has been activated; a symbol with a dependency that is not
marked executed is moved to the waiting list; otherwise the callback is
invoked and the symbol is marked executed. The boolean tells whether the
callback left events pending, in which case the scheduler returns. -/
def examineSymbol (cache : SymbolsCache) (cb : Nat → CacheCheckpoint → CallbackResult)
    (st : CacheCheckpoint) (id : Nat) : CacheCheckpoint × Bool :=
  if (cache.item id).type = .SYMBOL_TYPE_GHOST ∨ (cache.item id).type = .SYMBOL_TYPE_VIRTUAL
  then (st, false)
  else if (cache.item id).type = .SYMBOL_TYPE_FINE ∧ st.activated.all (fun a => a == id) then
    ({ st with waiting := st.waiting ++ [id] }, false)
  else if (cache.item id).deps.any (fun d => !st.executed.contains d) then
    ({ st with waiting := st.waiting ++ [id] }, false)
  else
    ({ st with
        executed := id :: st.executed
        log := st.log ++ [id]
        progress := true
        activated := if (cb id st).activated then id :: st.activated else st.activated },
      (cb id st).pending)

/-- Modelled from the spec: step 1 of the per-task algorithm of
`symbols_cache.c` (not among the sources): "starting from the saved cursor,
examine each symbol in order"; on suspension the cursor saved is the one after
the suspending symbol. The first argument bounds the number of symbols
examined. -/
def mainPass (cache : SymbolsCache) (cb : Nat → CacheCheckpoint → CallbackResult) :
    Nat → CacheCheckpoint → CacheCheckpoint × Bool
  | 0, st => (st, false)
  | n + 1, st =>
    match cache.order.get? st.cursor with
    | none => (st, false)
    | some id =>
      let r := examineSymbol cache cb { st with cursor := st.cursor + 1 } id
      if r.2 then r else mainPass cache cb n r.1

/-- Modelled from the spec: one revisit of the waiters (step 6 of
`symbols_cache.c`, not among the sources); on suspension the waiters not yet
revisited stay on the waiting list. -/
def revisit (cache : SymbolsCache) (cb : Nat → CacheCheckpoint → CallbackResult) :
    List Nat → CacheCheckpoint → CacheCheckpoint × Bool
  | [], st => (st, false)
  | w :: ws, st =>
    let r := examineSymbol cache cb st w
    if r.2 then ({ r.1 with waiting := ws ++ r.1.waiting }, true) else revisit cache cb ws r.1

/-- Modelled from the spec: steps 6 and 7 of `symbols_cache.c` (not among the
sources): "if the waiting-list is non-empty and any progress was made,
revisit waiters; if a full pass produces no progress, declare the remaining
waiters unresolvable (log, mark executed)"; with an empty waiting list the
stage is complete. The first argument bounds the number of revisits. -/
def settle (cache : SymbolsCache) (cb : Nat → CacheCheckpoint → CallbackResult) :
    Nat → CacheCheckpoint → CacheCheckpoint × Bool
  | 0, st => (st, false)
  | n + 1, st =>
    if st.waiting = [] then ({ st with complete := true }, false)
    else if st.progress then
      let r := revisit cache cb st.waiting { st with waiting := [], progress := false }
      if r.2 then r else settle cache cb n r.1
    else
      ({ st with executed := st.waiting ++ st.executed, waiting := [], complete := true }, false)

/-- Modelled from the spec: the function `rspamd_symbols_cache_process_symbols`
of `symbols_cache.c` (not among the sources; `symbols_cache.h` declares it),
as one visit of the scheduler to a task: the pass from the saved cursor, then
the revisits of the waiters, until a callback suspends or the stage is
complete. The revisits are bounded by the number of waiters plus two. -/
def rspamd_symbols_cache_process_symbols (cache : SymbolsCache)
    (cb : Nat → CacheCheckpoint → CallbackResult) (st : CacheCheckpoint) : CacheCheckpoint :=
  if st.complete then st
  else
    let r := mainPass cache cb (cache.order.length - st.cursor) st
    if r.2 then r.1 else (settle cache cb (r.1.waiting.length + 2) r.1).1

/-- The descriptor of the symbol `id` among the registered symbols `items`. -/
def itemOf (items : List CacheItem) (id : Nat) : CacheItem :=
  items.getD id ⟨.SYMBOL_TYPE_NORMAL, []⟩

/-- One more than the greatest of the levels given, 0 when there is none, and
no level when one of them is missing. -/
def levelAbove : List (Option Nat) → Option Nat
  | [] => some 0
  | none :: _ => none
  | some l :: rest => (levelAbove rest).map (fun m => max (l + 1) m)

/-- Modelled from the spec: the depth-first walk of post-load in
`symbols_cache.c` (not among the sources) over the dependencies of the symbol
`id`: "Verify no cycles (detect via DFS; fail on back-edge)" and the
"topological level" of the symbol, which is 0 for a symbol without
dependencies and otherwise one more than the greatest level of its
dependencies. The first argument bounds the length of the path walked; a path
longer than the number of symbols runs through a cycle, and gives `none`. -/
def topoLevel (items : List CacheItem) : Nat → Nat → Option Nat
  | 0, _ => none
  | fuel + 1, id => levelAbove ((itemOf items id).deps.map (topoLevel items fuel))

/-- Modelled from the spec: the comparison by which post-load of
`symbols_cache.c` (not among the sources) sorts the symbols: "The topological
constraint is strict; within each topological level the rank above decides
execution order", a higher rank coming first; "Ties broken by registration
id". -/
def orderBefore (level : Nat → Nat) (rank : Nat → Int) (a b : Nat) : Bool :=
  decide (level a < level b ∨
    (level a = level b ∧ (rank b < rank a ∨ (rank a = rank b ∧ a ≤ b))))

/-- Modelled from the spec: the operation post-load of `symbols_cache.c` (not
among the sources), on the registered symbols with their dependencies resolved
to ids: it fails (`none`) when the dependencies have a cycle or a symbol
depends on a callback-only symbol, and otherwise it produces the execution
order, "an ordered vector of real symbols ... such that every symbol appears
after all its dependencies", sorted by topological level, then rank, then id.
The rank of the spec is computed from weight, frequency, average time and
priority in real numbers; it is the parameter `rank`. -/
def post_load (items : List CacheItem) (rank : Nat → Int) : Option SymbolsCache :=
  if (List.range items.length).all (fun id =>
      (topoLevel items (items.length + 1) id).isSome &&
      (itemOf items id).deps.all
        (fun d => decide ((itemOf items d).type ≠ .SYMBOL_TYPE_CALLBACK)))
  then
    some ⟨items,
      List.insertionSort
        (fun a b =>
          orderBefore (fun id => (topoLevel items (items.length + 1) id).getD 0) rank a b
            = true)
        ((List.range items.length).filter
          (fun id => decide ((itemOf items id).type ≠ .SYMBOL_TYPE_VIRTUAL)))⟩
  else none

/-- Sample symbols with a cycle: symbols 0 and 1 depend on each other. -/
def cyclicItems : List CacheItem :=
  [⟨.SYMBOL_TYPE_NORMAL, [1]⟩, ⟨.SYMBOL_TYPE_NORMAL, [0]⟩]

/-- The table `g_hash_table_new (rspamd_str_hash, rspamd_str_equal)` that
`rspamd_task_new` puts into `task->re_cache`: no key has an entry. -/
def g_hash_table_new : ReCache := fun _ => 0

/-- The regexp cache of a task on which `rspamd_task_re_cache_add (task, re, v)`
has been called for the pairs `(re, v)` of `adds`, in that order, since
`rspamd_task_new`. -/
def cacheAfter (NO_VALUE : Nat) (adds : List (String × Nat)) : ReCache :=
  adds.foldl (fun cache a => (rspamd_task_re_cache_add NO_VALUE cache a.1 a.2).2)
    g_hash_table_new

/-- The value of the last pair of `adds` whose key is `re`, if there is one. -/
def lastAdded (adds : List (String × Nat)) (re : String) : Option Nat :=
  adds.foldl (fun acc a => if a.1 = re then some a.2 else acc) none

/-! ## `log_helper.c`: reading the log pipe -/

/-- The layout of `struct rspamd_protocol_log_message_sum`, which is declared
in `protocol.h`, not among the sources: the size of the struct, the offset of
its member `results` and the size of one element of `results`. -/
structure LogSumLayout where
  sizeof_sum : Nat
  offsetof_results : Nat
  sizeof_result : Nat
  deriving DecidableEq, Repr

/-- The layout with which the length check of `rspamd_log_helper_read` counts:
a `guint32` count followed by `guint32` ids. -/
def guint32Layout : LogSumLayout := ⟨4, 4, 4⟩

/-- The unsigned value of a sequence of bytes in the byte order of the host,
taken to be little-endian. -/
def le_value : List Nat → Nat
  | [] => 0
  | b :: bs => b % 256 + 256 * le_value bs

/-- A load of `size` bytes at the offset `off` of a block of memory holding
the bytes `mem`. `none` is a load that does not lie within the block. -/
def load (mem : List Nat) (off size : Nat) : Option Nat :=
  if off + size ≤ mem.length then some (le_value ((mem.drop off).take size)) else none

/-- What `rspamd_log_helper_read` writes to the log. -/
inductive LogLine where
  | silent
  | bad_length (announced available : Nat)
  | read_error
  | got_log_line (out : String)
  deriving DecidableEq, Repr

/-- The outcome of `rspamd_log_helper_read`: the log line, and the offsets in
`sm` of the elements `sm->results[i]` that were read, in the order of the
reads. -/
structure LogRead where
  line : LogLine
  reads : List Nat
  deriving DecidableEq, Repr

/-- The loop `for (i = 0; i < n; i ++)` of `rspamd_log_helper_read` with `k`
iterations left (`k = n - i`): each iteration loads `sm->results[i]` and
appends the name of that symbol to `out`. -/
def resultsLoop (L : LogSumLayout) (symbol_by_id : Nat → String) (sm : List Nat) :
    Nat → Nat → String → List Nat → Option (String × List Nat)
  | 0, _, out, reads => some (out, reads)
  | k + 1, i, out, reads =>
    match load sm (L.offsetof_results + L.sizeof_result * i) L.sizeof_result with
    | none => none
    | some id =>
      resultsLoop L symbol_by_id sm k (i + 1)
        (out ++ (if i = 0 then "" else ", ") ++ symbol_by_id id)
        (reads ++ [L.offsetof_results + L.sizeof_result * i])

/-- The function `rspamd_log_helper_read`. `r` is what `read (fd, buf, sizeof
(buf))` returned and `buf` the 1024 bytes of the buffer after it.
`symbol_by_id` is `rspamd_symbols_cache_symbol_by_id` on the cache of the
configuration. `none` is a load outside the block it reads from. The
subtraction `r - sizeof (guint32)` is one of 64-bit unsigned numbers. -/
def rspamd_log_helper_read (L : LogSumLayout) (symbol_by_id : Nat → String) (r : Int)
    (buf : List Nat) : Option LogRead :=
  if r ≥ (L.sizeof_sum : Int) then
    -- memcpy (&n, buf, sizeof (n));
    match load buf 0 4 with
    | none => none
    | some n =>
      if n ≠ ((r.toNat + 2 ^ 64 - 4) % 2 ^ 64) / 4 then
        some ⟨.bad_length n (((r.toNat + 2 ^ 64 - 4) % 2 ^ 64) / 4), []⟩
      else
        -- sm = g_malloc (r); memcpy (sm, buf, r);
        let sm := buf.take r.toNat
        (resultsLoop L symbol_by_id sm n 0 "" []).map
          (fun p => ⟨.got_log_line p.1, p.2⟩)
  else if r = -1 then some ⟨.read_error, []⟩
  else some ⟨.silent, []⟩

/-- A buffer of 1024 bytes that starts with the three words 2, 5, 7. -/
def sampleLogBuf : List Nat :=
  [2, 0, 0, 0, 5, 0, 0, 0, 7, 0, 0, 0] ++ List.replicate 1012 0

/-- Every handler leaves `processed_stages` within the bits up to
`DONE = 2 ^ d` when the task it is given has `processed_stages` within them.
Within these bits a handler may set and clear what it likes. -/
def Handlers.StagesWithin {ρ : Type} (H : Handlers ρ) (d : Nat) : Prop :=
  ∀ (h : StageHandler) (t : Task ρ), t.processed_stages < 2 ^ (d + 1) →
    (H.run h t).processed_stages < 2 ^ (d + 1)

/-- Handlers that succeed and clear `processed_stages`. -/
def clearingHandlers : Handlers Unit where
  rspamd_message_parse := fun t => (true, { t with processed_stages := 0 })
  rspamd_lua_call_pre_filters := fun t => { t with processed_stages := 0 }
  rspamd_symbols_cache_process_symbols := fun t => (true, { t with processed_stages := 0 })
  rspamd_stat_classify := fun t => (false, { t with processed_stages := 0 })
  rspamd_make_composites := fun t => { t with processed_stages := 0 }
  rspamd_lua_call_post_filters := fun t => { t with processed_stages := 0 }

/-! ## Unfolding `rspamd_task_process` -/

theorem dispatch_handler {ρ : Type} (c : TaskConsts) (H : Handlers ρ) (st : Nat)
    (task : Task ρ) (h : StageHandler) (hh : handlerOf c st = some h) :
    dispatch c H st task = (retOf H h task, H.run h task, [(h, task)]) := by
  unfold handlerOf at hh
  unfold dispatch
  split_ifs at hh ⊢ <;> (injection hh with hh; subst hh; simp [retOf, Handlers.run])

theorem dispatch_none {ρ : Type} (c : TaskConsts) (H : Handlers ρ) (st : Nat)
    (task : Task ρ) (hh : handlerOf c st = none) :
    dispatch c H st task =
      (true, (if st = c.RSPAMD_TASK_STAGE_DONE then
        { task with
          processed_stages := task.processed_stages ||| c.RSPAMD_TASK_STAGE_DONE }
        else task), []) := by
  unfold handlerOf at hh
  unfold dispatch
  split_ifs at hh ⊢ <;> simp_all

theorem process_unfold {ρ : Type} (c : TaskConsts) (H : Handlers ρ) (n stages : Nat)
    (task : Task ρ) :
    rspamd_task_process c H n stages task =
      processBody c H
        (match n with
          | 0 => fun _ => none
          | m + 1 => rspamd_task_process c H m stages) stages task := by
  cases n <;> rfl

/-- The body of `rspamd_task_process` once the two guards are passed and the
stage is selected. -/
theorem processBody_selected {ρ : Type} (c : TaskConsts) (H : Handlers ρ)
    (self : Task ρ → Option (Outcome ρ)) (stages : Nat) (task : Task ρ)
    (st : Nat) (t1 : Task ρ)
    (h1 : inProcessing c task = false) (h2 : RSPAMD_TASK_IS_PROCESSED c task = false)
    (hs : rspamd_task_select_processing_stage c
      { task with flags := task.flags ||| c.RSPAMD_TASK_FLAG_PROCESSING } stages
        = some (st, t1)) :
    processBody c H self stages task =
      if (!(dispatch c H st t1).1 || RSPAMD_TASK_IS_PROCESSED c (afterSwitch c H st t1)) = true
      then some ⟨(dispatch c H st t1).1, afterSwitch c H st t1, (dispatch c H st t1).2.2⟩
      else if (afterSwitch c H st t1).s ≠ 0
      then some ⟨(dispatch c H st t1).1, afterSwitch c H st t1, (dispatch c H st t1).2.2⟩
      else (self (nextTask c H st t1)).map
        fun o => { o with trace := (dispatch c H st t1).2.2 ++ o.trace } := by
  unfold processBody
  simp only [h1, h2, hs, afterSwitch, nextTask]
  simp

theorem processBody_guard {ρ : Type} (c : TaskConsts) (H : Handlers ρ)
    (self : Task ρ → Option (Outcome ρ)) (stages : Nat) (task : Task ρ)
    (h : inProcessing c task = true ∨ RSPAMD_TASK_IS_PROCESSED c task = true) :
    processBody c H self stages task = some ⟨true, task, []⟩ := by
  unfold processBody
  rcases h with h | h
  · simp [h]
  · by_cases h1 : inProcessing c task = true <;> simp [h, h1]

/-- Every way in which `rspamd_task_process` returns: through one of the two
guards, after the `switch` without a tail call, or through the tail call. -/
theorem process_cases {ρ : Type} (c : TaskConsts) (H : Handlers ρ) (n stages : Nat)
    (task : Task ρ) (o : Outcome ρ) (h : rspamd_task_process c H n stages task = some o) :
    (o = ⟨true, task, []⟩ ∧
      (inProcessing c task = true ∨ RSPAMD_TASK_IS_PROCESSED c task = true)) ∨
    (inProcessing c task = false ∧ RSPAMD_TASK_IS_PROCESSED c task = false ∧
      ∃ st t1, rspamd_task_select_processing_stage c
          { task with flags := task.flags ||| c.RSPAMD_TASK_FLAG_PROCESSING } stages
            = some (st, t1) ∧
        ((o = ⟨(dispatch c H st t1).1, afterSwitch c H st t1, (dispatch c H st t1).2.2⟩ ∧
            ((dispatch c H st t1).1 = false ∨
              RSPAMD_TASK_IS_PROCESSED c (afterSwitch c H st t1) = true ∨
              (afterSwitch c H st t1).s ≠ 0)) ∨
          ((dispatch c H st t1).1 = true ∧
            RSPAMD_TASK_IS_PROCESSED c (afterSwitch c H st t1) = false ∧
            (afterSwitch c H st t1).s = 0 ∧
            ∃ m o', n = m + 1 ∧
              rspamd_task_process c H m stages (nextTask c H st t1) = some o' ∧
              o = { o' with trace := (dispatch c H st t1).2.2 ++ o'.trace }))) := by
  rw [process_unfold] at h
  by_cases h1 : inProcessing c task = true
  · rw [processBody_guard c H _ stages task (Or.inl h1)] at h
    exact Or.inl ⟨(Option.some.inj h).symm, Or.inl h1⟩
  by_cases h2 : RSPAMD_TASK_IS_PROCESSED c task = true
  · rw [processBody_guard c H _ stages task (Or.inr h2)] at h
    exact Or.inl ⟨(Option.some.inj h).symm, Or.inr h2⟩
  simp only [Bool.not_eq_true] at h1 h2
  refine Or.inr ⟨h1, h2, ?_⟩
  cases hs : rspamd_task_select_processing_stage c
      { task with flags := task.flags ||| c.RSPAMD_TASK_FLAG_PROCESSING } stages with
  | none =>
    unfold processBody at h
    simp [h1, h2, hs] at h
  | some r =>
    obtain ⟨st, t1⟩ := r
    refine ⟨st, t1, rfl, ?_⟩
    rw [processBody_selected c H _ stages task st t1 h1 h2 hs] at h
    split_ifs at h with h3 h4
    · left
      refine ⟨(Option.some.inj h).symm, ?_⟩
      simp only [Bool.or_eq_true, Bool.not_eq_true'] at h3
      rcases h3 with h3 | h3
      · exact Or.inl h3
      · exact Or.inr (Or.inl h3)
    · left
      exact ⟨(Option.some.inj h).symm, Or.inr (Or.inr h4)⟩
    · right
      simp only [Bool.or_eq_true, Bool.not_eq_true', not_or, Bool.not_eq_false,
        Bool.not_eq_true] at h3
      simp only [ne_eq, not_not] at h4
      refine ⟨h3.1, h3.2, h4, ?_⟩
      cases n with
      | zero => simp at h
      | succ m =>
        simp only [Option.map_eq_some'] at h
        obtain ⟨o', ho', ho⟩ := h
        exact ⟨m, o', rfl, ho', ho.symm⟩

/-! ## Bits -/

theorem or_and_self_right (x p : Nat) : (x ||| p) &&& p = p := by
  apply Nat.eq_of_testBit_eq
  intro i
  simp only [Nat.testBit_and, Nat.testBit_or]
  cases x.testBit i <;> cases p.testBit i <;> rfl

theorem testBit_mask32 (i : Nat) : Nat.testBit 4294967295 i = decide (i < 32) := by
  have h : (4294967295 : Nat) = 2 ^ 32 - 1 := by norm_num
  rw [h, Nat.testBit_two_pow_sub_one]

theorem testBit_false_of_lt {x n i : Nat} (hx : x < 2 ^ n) (hi : n ≤ i) :
    x.testBit i = false :=
  Nat.testBit_lt_two_pow (Nat.lt_of_lt_of_le hx (Nat.pow_le_pow_right (by decide) hi))

theorem clear_and_self (x p : Nat) (hp : p < 2 ^ 32) :
    (x &&& (4294967295 ^^^ p)) &&& p = 0 := by
  apply Nat.eq_of_testBit_eq
  intro i
  simp only [Nat.testBit_and, Nat.testBit_xor, testBit_mask32, Nat.zero_testBit]
  by_cases hi : i < 32
  · cases x.testBit i <;> cases p.testBit i <;> simp [hi]
  · rw [testBit_false_of_lt hp (Nat.le_of_not_lt hi)]
    simp

/-! ## The two guards (C3, C4) -/

/-- C3. A call of `rspamd_task_process` on a task that has the `PROCESSING`
flag set returns TRUE and is a no-op: no handler is dispatched and the task
(`processed_stages`, `flags`, `checkpoint` and all the rest) is left as it was.
This holds for every mask and however many tail calls are allowed. -/
theorem process_nested_call_is_noop {ρ : Type} (c : TaskConsts) (H : Handlers ρ)
    (n stages : Nat) (task : Task ρ) (h : inProcessing c task = true) :
    rspamd_task_process c H n stages task = some ⟨true, task, []⟩ := by
  rw [process_unfold]
  exact processBody_guard c H _ stages task (Or.inl h)

/-- Witness of C3: a task with only the `PROCESSING` flag set, all stages
requested. -/
theorem process_nested_call_is_noop_witness :
    inProcessing sampleConsts { newTask with flags := 1 } = true ∧
    rspamd_task_process sampleConsts idleHandlers 8 127 { newTask with flags := 1 }
      = some ⟨true, { newTask with flags := 1 }, []⟩ :=
  ⟨by decide, process_nested_call_is_noop sampleConsts idleHandlers 8 127
    { newTask with flags := 1 } (by decide)⟩

/-- C4. A call of `rspamd_task_process` on a task whose `processed_stages`
contains `DONE` makes no stage transition: it dispatches no handler, leaves
`processed_stages` (and the whole task) unchanged and returns TRUE, for every
mask. -/
theorem process_done_is_final {ρ : Type} (c : TaskConsts) (H : Handlers ρ)
    (n stages : Nat) (task : Task ρ) (h : RSPAMD_TASK_IS_PROCESSED c task = true) :
    rspamd_task_process c H n stages task = some ⟨true, task, []⟩ := by
  rw [process_unfold]
  exact processBody_guard c H _ stages task (Or.inr h)

/-- Witness of C4: a task with only `DONE` processed, all stages requested. -/
theorem process_done_is_final_witness :
    RSPAMD_TASK_IS_PROCESSED sampleConsts { newTask with processed_stages := 64 } = true ∧
    rspamd_task_process sampleConsts idleHandlers 8 127
        { newTask with processed_stages := 64 }
      = some ⟨true, { newTask with processed_stages := 64 }, []⟩ :=
  ⟨by decide, process_done_is_final sampleConsts idleHandlers 8 127
    { newTask with processed_stages := 64 } (by decide)⟩

/-! ## Frame lemmas -/

theorem select_frame {ρ : Type} (c : TaskConsts) (task : Task ρ) (stages st : Nat)
    (t1 : Task ρ) (h : rspamd_task_select_processing_stage c task stages = some (st, t1)) :
    ∃ p, selectStage c stages 32 task.processed_stages = some (st, p) ∧
      t1 = { task with processed_stages := p } := by
  unfold rspamd_task_select_processing_stage at h
  simp only [Option.map_eq_some'] at h
  obtain ⟨⟨a, b⟩, hab, he⟩ := h
  simp only [Prod.mk.injEq] at he
  exact ⟨b, by rw [hab, he.1], he.2.symm⟩

theorem selectStage_keeps_bits (c : TaskConsts) (stages : Nat) :
    ∀ (n p st q : Nat), selectStage c stages n p = some (st, q) →
      ∀ i, p.testBit i = true → q.testBit i = true := by
  intro n
  induction n with
  | zero => intro p st q h; simp [selectStage] at h
  | succ n ih =>
    intro p st q h i hi
    simp only [selectStage] at h
    split_ifs at h with h1 h2 h3
    · simp only [Option.some.injEq, Prod.mk.injEq] at h
      rw [← h.2]; exact hi
    · refine ih _ st q h i ?_
      rw [Nat.testBit_or, hi, Bool.true_or]
    · simp only [Option.some.injEq, Prod.mk.injEq] at h
      rw [← h.2]; exact hi

theorem dispatch_task {ρ : Type} (c : TaskConsts) (H : Handlers ρ) (st : Nat)
    (t1 : Task ρ) :
    (∃ h, handlerOf c st = some h ∧
      dispatch c H st t1 = (retOf H h t1, H.run h t1, [(h, t1)])) ∨
    (handlerOf c st = none ∧ (dispatch c H st t1).1 = true ∧
      (dispatch c H st t1).2.2 = [] ∧
      ((dispatch c H st t1).2.1 = t1 ∨
        (st = c.RSPAMD_TASK_STAGE_DONE ∧ (dispatch c H st t1).2.1 =
          { t1 with
            processed_stages := t1.processed_stages ||| c.RSPAMD_TASK_STAGE_DONE }))) := by
  cases hh : handlerOf c st with
  | some h => exact Or.inl ⟨h, rfl, dispatch_handler c H st t1 h hh⟩
  | none =>
    refine Or.inr ⟨rfl, ?_⟩
    rw [dispatch_none c H st t1 hh]
    by_cases hd : st = c.RSPAMD_TASK_STAGE_DONE
    · exact ⟨rfl, rfl, Or.inr ⟨hd, by simp [hd]⟩⟩
    · exact ⟨rfl, rfl, Or.inl (by simp [hd])⟩

theorem dispatch_keeps_bits {ρ : Type} (c : TaskConsts) (H : Handlers ρ)
    (hK : H.KeepStages) (st : Nat) (t1 : Task ρ) (i : Nat)
    (hi : t1.processed_stages.testBit i = true) :
    (dispatch c H st t1).2.1.processed_stages.testBit i = true := by
  rcases dispatch_task c H st t1 with ⟨h, _, hd⟩ | ⟨_, _, _, hd | ⟨_, hd⟩⟩
  · rw [hd]; simp only [hK h t1, hi]
  · rw [hd]; exact hi
  · rw [hd]; simp only [Nat.testBit_or, hi, Bool.true_or]

theorem markSkipped_keeps_bits {ρ : Type} (c : TaskConsts) (t : Task ρ) (i : Nat)
    (hi : t.processed_stages.testBit i = true) :
    (markSkipped c t).processed_stages.testBit i = true := by
  unfold markSkipped
  split_ifs
  · simp only [Nat.testBit_or, hi, Bool.true_or]
  · exact hi

theorem afterSwitch_keeps_bits {ρ : Type} (c : TaskConsts) (H : Handlers ρ)
    (hK : H.KeepStages) (st : Nat) (t1 : Task ρ) (i : Nat)
    (hi : t1.processed_stages.testBit i = true) :
    (afterSwitch c H st t1).processed_stages.testBit i = true := by
  unfold afterSwitch clearProcessing
  exact markSkipped_keeps_bits c _ i (dispatch_keeps_bits c H hK st t1 i hi)

/-! ## Monotonicity of `processed_stages` (C2) -/

/-- C2. A call of `rspamd_task_process` never clears a bit of
`processed_stages`: for every task, every requested mask and every number of
allowed tail calls, whenever the call returns (with TRUE or FALSE), every bit
that was set in `processed_stages` before the call is set after it, provided
the stage handlers do not write `processed_stages`. -/
theorem process_never_clears_stage {ρ : Type} (c : TaskConsts) (H : Handlers ρ)
    (hK : H.KeepStages) (n stages : Nat) (task : Task ρ) (o : Outcome ρ)
    (h : rspamd_task_process c H n stages task = some o) (i : Nat)
    (hi : task.processed_stages.testBit i = true) :
    o.task.processed_stages.testBit i = true := by
  induction n generalizing task o with
  | zero =>
    rcases process_cases c H 0 stages task o h with ⟨ho, _⟩ |
      ⟨_, _, st, t1, hs, ⟨ho, _⟩ | ⟨_, _, _, m, o', hm, _, _⟩⟩
    · rw [ho]; exact hi
    · obtain ⟨p, hp, ht1⟩ := select_frame c _ stages st t1 hs
      rw [ho]
      apply afterSwitch_keeps_bits c H hK
      rw [ht1]
      exact selectStage_keeps_bits c stages 32 _ st p hp i hi
    · exact absurd hm (by omega)
  | succ n ih =>
    rcases process_cases c H (n + 1) stages task o h with ⟨ho, _⟩ |
      ⟨_, _, st, t1, hs, ⟨ho, _⟩ | ⟨_, _, _, m, o', hm, ho', ho⟩⟩
    · rw [ho]; exact hi
    · obtain ⟨p, hp, ht1⟩ := select_frame c _ stages st t1 hs
      rw [ho]
      apply afterSwitch_keeps_bits c H hK
      rw [ht1]
      exact selectStage_keeps_bits c stages 32 _ st p hp i hi
    · obtain ⟨p, hp, ht1⟩ := select_frame c _ stages st t1 hs
      have hm' : m = n := by omega
      subst hm'
      rw [ho]
      apply ih (nextTask c H st t1) o' ho'
      unfold nextTask
      simp only [Nat.testBit_or]
      rw [afterSwitch_keeps_bits c H hK st t1 i ?_, Bool.true_or]
      rw [ht1]
      exact selectStage_keeps_bits c stages 32 _ st p hp i hi

/-- Witness of C2: a task with the stages up to composites processed; the call
runs the post-filters and marks the task done, and bit 0 stays set. -/
theorem process_never_clears_stage_witness :
    idleHandlers.KeepStages ∧
    ∃ o, rspamd_task_process sampleConsts idleHandlers 8 127
        { newTask with processed_stages := 31 } = some o ∧
      o.task.processed_stages = 127 ∧
      o.task.processed_stages.testBit 0 = true :=
  ⟨fun h t => by cases h <;> rfl,
    ⟨true, ⟨127, 0, none, 0, ()⟩, [(.rspamd_lua_call_post_filters, ⟨31, 1, none, 0, ()⟩)]⟩,
    by decide, rfl,
    process_never_clears_stage sampleConsts idleHandlers (fun h t => by cases h <;> rfl)
      8 127 { newTask with processed_stages := 31 } _ (by decide) 0 (by decide)⟩

/-! ## The `PROCESSING` guard (C5) -/

theorem select_flags {ρ : Type} (c : TaskConsts) (task : Task ρ) (stages st : Nat)
    (t1 : Task ρ) (h : rspamd_task_select_processing_stage c task stages = some (st, t1)) :
    t1.flags = task.flags ∧ t1.checkpoint = task.checkpoint ∧ t1.s = task.s ∧
      t1.rest = task.rest := by
  obtain ⟨p, _, ht1⟩ := select_frame c task stages st t1 h
  rw [ht1]
  exact ⟨rfl, rfl, rfl, rfl⟩

theorem afterSwitch_not_processing {ρ : Type} (c : TaskConsts) (H : Handlers ρ)
    (hP : c.RSPAMD_TASK_FLAG_PROCESSING < 2 ^ 32) (st : Nat) (t1 : Task ρ) :
    inProcessing c (afterSwitch c H st t1) = false := by
  unfold afterSwitch clearProcessing inProcessing
  simp only [clear_and_self _ _ hP]
  rfl

theorem dispatch_trace_mem {ρ : Type} (c : TaskConsts) (H : Handlers ρ) (st : Nat)
    (t1 : Task ρ) (e : Call ρ) (he : e ∈ (dispatch c H st t1).2.2) : e.2 = t1 := by
  rcases dispatch_task c H st t1 with ⟨h, _, hd⟩ | ⟨_, _, hd, _⟩
  · rw [hd] at he
    simp only [List.mem_singleton] at he
    rw [he]
  · rw [hd] at he
    exact absurd he (List.not_mem_nil e)

/-- C5. For a call of `rspamd_task_process` entered with `PROCESSING` clear,
every stage handler that the call dispatches (in the call itself or in one of
its tail calls) receives the task with the `PROCESSING` flag set, and the
`PROCESSING` flag is clear in the task that the call leaves, on every return
path. The constant `RSPAMD_TASK_FLAG_PROCESSING` is a non-zero 32-bit mask.
Handlers are atomic in the embedding, so the assumption that they do not
write the flag is not needed; nor is the one that `DONE` is unset. -/
theorem process_sets_and_clears_processing {ρ : Type} (c : TaskConsts) (H : Handlers ρ)
    (hP0 : c.RSPAMD_TASK_FLAG_PROCESSING ≠ 0)
    (hP : c.RSPAMD_TASK_FLAG_PROCESSING < 2 ^ 32)
    (n stages : Nat) (task : Task ρ) (o : Outcome ρ)
    (h1 : inProcessing c task = false)
    (h : rspamd_task_process c H n stages task = some o) :
    (∀ e ∈ o.trace, inProcessing c e.2 = true) ∧ inProcessing c o.task = false := by
  have hset : ∀ (t : Task ρ) (st : Nat) (t1 : Task ρ),
      rspamd_task_select_processing_stage c
        { t with flags := t.flags ||| c.RSPAMD_TASK_FLAG_PROCESSING } stages = some (st, t1) →
      inProcessing c t1 = true := by
    intro t st t1 hs
    have hf := (select_flags c _ stages st t1 hs).1
    unfold inProcessing
    rw [hf]
    simp only [or_and_self_right]
    simpa using hP0
  induction n generalizing task o with
  | zero =>
    rcases process_cases c H 0 stages task o h with ⟨ho, _⟩ |
      ⟨_, _, st, t1, hs, ⟨ho, _⟩ | ⟨_, _, _, m, o', hm, _, _⟩⟩
    · rw [ho]; exact ⟨fun e he => absurd he (List.not_mem_nil e), h1⟩
    · rw [ho]
      refine ⟨fun e he => ?_, afterSwitch_not_processing c H hP st t1⟩
      rw [dispatch_trace_mem c H st t1 e he]
      exact hset task st t1 hs
    · exact absurd hm (by omega)
  | succ n ih =>
    rcases process_cases c H (n + 1) stages task o h with ⟨ho, _⟩ |
      ⟨_, _, st, t1, hs, ⟨ho, _⟩ | ⟨_, _, _, m, o', hm, ho', ho⟩⟩
    · rw [ho]; exact ⟨fun e he => absurd he (List.not_mem_nil e), h1⟩
    · rw [ho]
      refine ⟨fun e he => ?_, afterSwitch_not_processing c H hP st t1⟩
      rw [dispatch_trace_mem c H st t1 e he]
      exact hset task st t1 hs
    · have hm' : m = n := by omega
      subst hm'
      have hnext : inProcessing c (nextTask c H st t1) = false :=
        afterSwitch_not_processing c H hP st t1
      obtain ⟨ih1, ih2⟩ := ih (nextTask c H st t1) o' hnext ho'
      rw [ho]
      refine ⟨fun e he => ?_, ih2⟩
      simp only [List.mem_append] at he
      rcases he with he | he
      · rw [dispatch_trace_mem c H st t1 e he]
        exact hset task st t1 hs
      · exact ih1 e he

/-- Witness of C5: a new task with all stages requested; all six handlers are
dispatched. -/
theorem process_sets_and_clears_processing_witness :
    inProcessing sampleConsts newTask = false ∧
    ∃ o, rspamd_task_process sampleConsts idleHandlers 8 127 newTask = some o ∧
      o.trace.length = 6 ∧
      (∀ e ∈ o.trace, inProcessing sampleConsts e.2 = true) ∧
      inProcessing sampleConsts o.task = false :=
  ⟨by decide, (rspamd_task_process sampleConsts idleHandlers 8 127 newTask).get (by decide),
    by decide, by decide,
    process_sets_and_clears_processing sampleConsts idleHandlers (by decide) (by decide)
      8 127 newTask _ (by decide) (by decide)⟩

/-! ## Stage selection (C6) -/

theorem and_two_pow_ne_zero (x k : Nat) : x &&& 2 ^ k ≠ 0 ↔ x.testBit k = true := by
  rw [Nat.and_two_pow]
  cases x.testBit k <;> simp

theorem selectLoop_eq : ∀ (k n mask st : Nat), 2 ^ k ≤ mask → mask < 2 ^ (k + 1) → k < n →
    selectLoop n mask st = st + k := by
  intro k
  induction k with
  | zero =>
    intro n mask st h1 h2 hn
    obtain ⟨n, rfl⟩ : ∃ m, n = m + 1 := ⟨n - 1, by omega⟩
    have : mask = 1 := by simp at h1 h2; omega
    simp [selectLoop, this]
  | succ k ih =>
    intro n mask st h1 h2 hn
    obtain ⟨n, rfl⟩ : ∃ m, n = m + 1 := ⟨n - 1, by omega⟩
    have hk : 0 < 2 ^ k := Nat.two_pow_pos k
    have e1 : 2 ^ (k + 1) = 2 * 2 ^ k := by rw [Nat.pow_succ]; omega
    have e2 : 2 ^ (k + 1 + 1) = 2 * (2 * 2 ^ k) := by rw [Nat.pow_succ, e1]; omega
    have hne : mask ≠ 1 := by omega
    simp only [selectLoop, hne, if_false]
    rw [ih n (mask >>> 1) (st + 1) ?_ ?_ (by omega)]
    · omega
    · rw [Nat.shiftRight_eq_div_pow]; simp only [Nat.pow_one]; omega
    · rw [Nat.shiftRight_eq_div_pow]; simp only [Nat.pow_one]; omega

theorem stageIndex_of_bounds (k p : Nat) (h1 : 2 ^ k ≤ p) (h2 : p < 2 ^ (k + 1)) :
    stageIndex p = k + 1 := by
  have hk : 0 < 2 ^ k := Nat.two_pow_pos k
  have hlt : k < 2 ^ k := Nat.lt_two_pow k
  unfold stageIndex
  rw [if_neg (by omega), selectLoop_eq k p p 1 h1 h2 (by omega)]
  omega

theorem stageIndex_run (k : Nat) : stageIndex (2 ^ k - 1) = k := by
  cases k with
  | zero => rfl
  | succ k =>
    have hk : 0 < 2 ^ k := Nat.two_pow_pos k
    have e1 : 2 ^ (k + 1) = 2 * 2 ^ k := by rw [Nat.pow_succ]; omega
    exact stageIndex_of_bounds k _ (by omega) (by omega)

theorem run_or_next (k : Nat) : (2 ^ k - 1) ||| 2 ^ k = 2 ^ (k + 1) - 1 := by
  apply Nat.eq_of_testBit_eq
  intro i
  simp only [Nat.testBit_or, Nat.testBit_two_pow_sub_one, Nat.testBit_two_pow]
  by_cases h1 : i < k
  · simp [h1, Nat.lt_succ_of_lt h1]
  · by_cases h2 : k = i
    · simp [h2]
    · have : ¬ i < k + 1 := by omega
      simp [h1, h2, this]

/-- On a run of low bits `2 ^ k - 1` below `DONE = 2 ^ d`, the selection
returns the first requested bit from position `k` on, or `DONE` when there is
none below it, and marks the bits it passed over. -/
theorem selectStage_run (c : TaskConsts) (d : Nat)
    (hD : c.RSPAMD_TASK_STAGE_DONE = 2 ^ d) (hd : d ≤ 30) (stages : Nat) :
    ∀ (g k n : Nat), k + g = d → g < n →
      ∃ j, k ≤ j ∧ j ≤ d ∧
        selectStage c stages n (2 ^ k - 1) = some (2 ^ j, 2 ^ j - 1) ∧
        (∀ i, k ≤ i → i < j → stages.testBit i = false) ∧
        (j < d → stages.testBit j = true) := by
  intro g
  induction g with
  | zero =>
    intro k n hk hn
    obtain ⟨n, rfl⟩ : ∃ m, n = m + 1 := ⟨n - 1, by omega⟩
    have hkd : k = d := by omega
    subst hkd
    refine ⟨k, Nat.le_refl _, Nat.le_refl _, ?_, fun i h1 h2 => absurd h1 (by omega),
      fun h => absurd h (by omega)⟩
    simp only [selectStage, stageIndex_run, Nat.one_shiftLeft, hD, Nat.lt_irrefl, if_false]
    rw [if_neg (by omega)]
    split_ifs <;> rfl
  | succ g ih =>
    intro k n hk hn
    obtain ⟨n, rfl⟩ : ∃ m, n = m + 1 := ⟨n - 1, by omega⟩
    simp only [selectStage, stageIndex_run, Nat.one_shiftLeft, hD]
    rw [if_neg (by omega)]
    by_cases hreq : stages &&& 2 ^ k ≠ 0
    · rw [if_pos hreq]
      exact ⟨k, Nat.le_refl _, by omega, rfl, fun i h1 h2 => absurd h1 (by omega),
        fun _ => (and_two_pow_ne_zero stages k).1 hreq⟩
    · rw [if_neg hreq, if_pos (Nat.pow_lt_pow_right (by decide) (by omega)), run_or_next]
      obtain ⟨j, h1, h2, h3, h4, h5⟩ := ih (k + 1) n (by omega) (by omega)
      refine ⟨j, by omega, h2, h3, fun i hi1 hi2 => ?_, h5⟩
      by_cases hik : i = k
      · subst hik
        cases hb : stages.testBit i with
        | false => rfl
        | true => exact absurd ((and_two_pow_ne_zero stages i).2 hb) hreq
      · exact h4 i (by omega) hi2

/-- C6, as the code has it. In a task whose `processed_stages` is a run of low
bits `2 ^ k - 1` without `DONE = 2 ^ d` (the states that the two functions
produce from a new task), `rspamd_task_select_processing_stage` returns a
stage for every requested mask; when the mask has an unprocessed bit up to
`DONE`, the returned stage is the lowest bit that is not set in
`processed_stages` and is set in the mask; when it has none, the returned
stage is `DONE`, requested or not. -/
theorem select_on_run_is_lowest_requested {ρ : Type} (c : TaskConsts) (d k : Nat)
    (hD : c.RSPAMD_TASK_STAGE_DONE = 2 ^ d) (hd : d ≤ 30) (task : Task ρ) (stages : Nat)
    (hrun : task.processed_stages = 2 ^ k - 1)
    (hdone : RSPAMD_TASK_IS_PROCESSED c task = false) :
    ∃ st t1, rspamd_task_select_processing_stage c task stages = some (st, t1) ∧
      ((∃ i, i ≤ d ∧ task.processed_stages.testBit i = false ∧ stages.testBit i = true) →
        LowestRequested task.processed_stages stages st) ∧
      ((∀ i, i ≤ d → ¬ (task.processed_stages.testBit i = false ∧ stages.testBit i = true)) →
        st = c.RSPAMD_TASK_STAGE_DONE) := by
  have hkd : k ≤ d := by
    unfold RSPAMD_TASK_IS_PROCESSED at hdone
    rw [hrun, hD] at hdone
    have h0 : ¬ ((2 ^ k - 1) &&& 2 ^ d ≠ 0) := by simpa using hdone
    rw [and_two_pow_ne_zero, Nat.testBit_two_pow_sub_one] at h0
    simpa using h0
  obtain ⟨j, h1, h2, h3, h4, h5⟩ :=
    selectStage_run c d hD hd stages (d - k) k 32 (by omega) (by omega)
  refine ⟨2 ^ j, { task with processed_stages := 2 ^ j - 1 }, ?_, ?_, ?_⟩
  · unfold rspamd_task_select_processing_stage
    rw [hrun, h3]
    rfl
  · rintro ⟨i, hid, hip, his⟩
    rw [hrun, Nat.testBit_two_pow_sub_one] at hip
    have hki : k ≤ i := by simpa using hip
    have hji : j ≤ i := by
      by_contra hlt
      rw [h4 i hki (by omega)] at his
      exact absurd his (by decide)
    refine ⟨j, rfl, ?_, ?_, ?_⟩
    · rw [hrun, Nat.testBit_two_pow_sub_one]
      simpa using h1
    · by_cases hjd : j < d
      · exact h5 hjd
      · have : i = j := by omega
        rw [← this]; exact his
    · rintro i' hi' ⟨hp', hs'⟩
      rw [hrun, Nat.testBit_two_pow_sub_one] at hp'
      have hki' : k ≤ i' := by simpa using hp'
      rw [h4 i' hki' hi'] at hs'
      exact absurd hs' (by decide)
  · intro hnone
    have hjd : j = d := by
      by_contra hne
      have hlt : j < d := by omega
      refine hnone j h2 ⟨?_, h5 hlt⟩
      rw [hrun, Nat.testBit_two_pow_sub_one]
      simpa using h1
    rw [hjd, hD]

/-- Witness of C6 as amended: parse done, pre-filters not requested. -/
theorem select_on_run_is_lowest_requested_witness :
    ∃ st t1, rspamd_task_select_processing_stage sampleConsts
        { newTask with processed_stages := 1 } 125 = some (st, t1) ∧
      ((∃ i, i ≤ 6 ∧ Nat.testBit 1 i = false ∧ Nat.testBit 125 i = true) →
        LowestRequested 1 125 st) ∧
      ((∀ i, i ≤ 6 → ¬ (Nat.testBit 1 i = false ∧ Nat.testBit 125 i = true)) →
        st = 64) :=
  select_on_run_is_lowest_requested sampleConsts 6 1 rfl (by decide)
    { newTask with processed_stages := 1 } 125 rfl (by decide)

/-- C6 as stated fails, on two counts. In a task with only bit 2 processed and
every stage requested, the selection returns bit 3, although bits 0 and 1 are
unprocessed and requested. In a new task with an empty requested mask, it
returns `DONE`, which is not set in the mask. -/
theorem select_not_lowest_requested :
    (inProcessing sampleConsts { newTask with processed_stages := 4 } = false ∧
      RSPAMD_TASK_IS_PROCESSED sampleConsts { newTask with processed_stages := 4 } = false ∧
      rspamd_task_select_processing_stage sampleConsts
        { newTask with processed_stages := 4 } 127
          = some (8, { newTask with processed_stages := 4 }) ∧
      ¬ LowestRequested 4 127 8) ∧
    (inProcessing sampleConsts newTask = false ∧
      RSPAMD_TASK_IS_PROCESSED sampleConsts newTask = false ∧
      rspamd_task_select_processing_stage sampleConsts newTask 0
          = some (64, { newTask with processed_stages := 63 }) ∧
      ¬ LowestRequested 0 0 64) := by
  refine ⟨⟨by decide, by decide, by decide, ?_⟩, ⟨by decide, by decide, by decide, ?_⟩⟩
  · rintro ⟨j, hj, _, _, hlow⟩
    have hj3 : j = 3 := by
      have : (2 : Nat) ^ 3 = 2 ^ j := by rw [← hj]; norm_num
      exact (Nat.pow_right_injective (Nat.le_refl 2) this).symm
    subst hj3
    exact hlow 0 (by decide) ⟨by decide, by decide⟩
  · rintro ⟨j, _, _, hreq, _⟩
    rw [Nat.zero_testBit] at hreq
    exact absurd hreq (by decide)

/-! ## What the selection returns, in any state -/

theorem lt_two_pow_stageIndex (p : Nat) : p < 2 ^ stageIndex p := by
  by_cases hp : p = 0
  · subst hp; decide
  · rw [stageIndex_of_bounds p.log2 p (Nat.log2_self_le hp) Nat.lt_log2_self]
    exact Nat.lt_log2_self

theorem and_stage_bit_eq_zero (p : Nat) : p &&& 2 ^ stageIndex p = 0 := by
  by_contra h
  have h1 := (and_two_pow_ne_zero p (stageIndex p)).1 h
  rw [Nat.testBit_lt_two_pow (lt_two_pow_stageIndex p)] at h1
  exact absurd h1 (by decide)

/-- The stage returned is the bit just above the highest processed bit, or
`DONE`. -/
theorem selectStage_shape (c : TaskConsts) (stages : Nat) :
    ∀ (n p st q : Nat), selectStage c stages n p = some (st, q) →
      st = 2 ^ stageIndex q ∨ st = c.RSPAMD_TASK_STAGE_DONE := by
  intro n
  induction n with
  | zero => intro p st q h; simp [selectStage] at h
  | succ n ih =>
    intro p st q h
    simp only [selectStage, Nat.one_shiftLeft] at h
    split_ifs at h with h1 h2 h3
    · simp only [Option.some.injEq, Prod.mk.injEq] at h
      left; rw [← h.1, ← h.2]
    · exact ih _ st q h
    · simp only [Option.some.injEq, Prod.mk.injEq] at h
      right; exact h.1.symm

theorem or_and_distrib_right (a b x : Nat) : (a ||| b) &&& x = (a &&& x) ||| (b &&& x) := by
  apply Nat.eq_of_testBit_eq
  intro i
  simp only [Nat.testBit_and, Nat.testBit_or]
  cases a.testBit i <;> cases b.testBit i <;> cases x.testBit i <;> rfl

theorem select_stage_unset {ρ : Type} (c : TaskConsts) (task : Task ρ) (stages st : Nat)
    (t1 : Task ρ) (h : rspamd_task_select_processing_stage c task stages = some (st, t1))
    (hne : st ≠ c.RSPAMD_TASK_STAGE_DONE) : t1.processed_stages &&& st = 0 := by
  obtain ⟨p, hp, ht1⟩ := select_frame c task stages st t1 h
  rcases selectStage_shape c stages 32 _ st p hp with h1 | h1
  · rw [ht1, h1]; exact and_stage_bit_eq_zero p
  · exact absurd h1 hne

theorem clearProcessing_stages {ρ : Type} (c : TaskConsts) (t : Task ρ) :
    (clearProcessing c t).processed_stages = t.processed_stages ∧
      (clearProcessing c t).s = t.s ∧ (clearProcessing c t).checkpoint = t.checkpoint ∧
      (clearProcessing c t).rest = t.rest :=
  ⟨rfl, rfl, rfl, rfl⟩

theorem isProcessed_clearProcessing {ρ : Type} (c : TaskConsts) (t : Task ρ) :
    RSPAMD_TASK_IS_PROCESSED c (clearProcessing c t) = RSPAMD_TASK_IS_PROCESSED c t := rfl

theorem markSkipped_of_not_skipped {ρ : Type} (c : TaskConsts) (t : Task ρ)
    (h : RSPAMD_TASK_IS_SKIPPED c t = false) : markSkipped c t = t := by
  unfold markSkipped
  simp [h]

theorem markSkipped_of_skipped {ρ : Type} (c : TaskConsts) (t : Task ρ)
    (h : RSPAMD_TASK_IS_SKIPPED c t = true) :
    markSkipped c t =
      { t with processed_stages := t.processed_stages ||| c.RSPAMD_TASK_STAGE_DONE } := by
  unfold markSkipped
  simp [h]

theorem isProcessed_or_done {ρ : Type} (c : TaskConsts) (t : Task ρ)
    (hD : c.RSPAMD_TASK_STAGE_DONE ≠ 0) :
    RSPAMD_TASK_IS_PROCESSED c
      { t with processed_stages := t.processed_stages ||| c.RSPAMD_TASK_STAGE_DONE }
        = true := by
  unfold RSPAMD_TASK_IS_PROCESSED
  simp only [or_and_self_right]
  simpa using hD

/-! ## After a handler (C7, C8, C9) -/

theorem afterSwitch_handler {ρ : Type} (c : TaskConsts) (H : Handlers ρ) (st : Nat)
    (t1 : Task ρ) (h : StageHandler) (hh : handlerOf c st = some h) :
    afterSwitch c H st t1 = clearProcessing c (markSkipped c (H.run h t1)) := by
  unfold afterSwitch
  rw [dispatch_handler c H st t1 h hh]

/-- C7. Let a call of `rspamd_task_process` pass its guards, select the stage
`st` and call its handler `h`, and let the handler succeed and leave the task
neither `DONE` nor `SKIPPED`. If the event session then has pending events, the
call returns TRUE having dispatched only `h`, and `processed_stages` is as the
handler left it: the bit `st` is not set (when handlers do not write
`processed_stages`). If no events are pending, the call sets the bit `st`,
resets the checkpoint and continues with the tail call on that task, which
selects and dispatches the next stage. -/
theorem process_after_successful_handler {ρ : Type} (c : TaskConsts) (H : Handlers ρ)
    (stages : Nat) (task : Task ρ) (st : Nat) (t1 : Task ρ) (h : StageHandler)
    (h1 : inProcessing c task = false) (h2 : RSPAMD_TASK_IS_PROCESSED c task = false)
    (hs : rspamd_task_select_processing_stage c
      { task with flags := task.flags ||| c.RSPAMD_TASK_FLAG_PROCESSING } stages
        = some (st, t1))
    (hh : handlerOf c st = some h) (hne : st ≠ c.RSPAMD_TASK_STAGE_DONE)
    (hret : retOf H h t1 = true)
    (hnd : RSPAMD_TASK_IS_PROCESSED c (H.run h t1) = false)
    (hns : RSPAMD_TASK_IS_SKIPPED c (H.run h t1) = false) :
    ((H.run h t1).s ≠ 0 →
      (∀ n, rspamd_task_process c H n stages task
        = some ⟨true, clearProcessing c (H.run h t1), [(h, t1)]⟩) ∧
      (clearProcessing c (H.run h t1)).processed_stages = (H.run h t1).processed_stages ∧
      (H.KeepStages → (clearProcessing c (H.run h t1)).processed_stages &&& st = 0)) ∧
    ((H.run h t1).s = 0 →
      (∀ n, rspamd_task_process c H (n + 1) stages task
        = (rspamd_task_process c H n stages
            { clearProcessing c (H.run h t1) with
              processed_stages := (H.run h t1).processed_stages ||| st
              checkpoint := none }).map
          fun o => { o with trace := (h, t1) :: o.trace }) ∧
      ((H.run h t1).processed_stages ||| st) &&& st = st) := by
  have haft : afterSwitch c H st t1 = clearProcessing c (H.run h t1) := by
    rw [afterSwitch_handler c H st t1 h hh, markSkipped_of_not_skipped c _ hns]
  have hd := dispatch_handler c H st t1 h hh
  have hbody : ∀ self, processBody c H self stages task =
      if (clearProcessing c (H.run h t1)).s ≠ 0
      then some ⟨true, clearProcessing c (H.run h t1), [(h, t1)]⟩
      else (self (nextTask c H st t1)).map fun o => { o with trace := [(h, t1)] ++ o.trace } := by
    intro self
    rw [processBody_selected c H self stages task st t1 h1 h2 hs, haft, hd]
    simp only [hret, isProcessed_clearProcessing, hnd]
    simp
  constructor
  · intro hpend
    refine ⟨fun n => ?_, rfl, fun hK => ?_⟩
    · have hpend' : (clearProcessing c (H.run h t1)).s ≠ 0 := hpend
      rw [process_unfold, hbody, if_pos hpend']
    · show (H.run h t1).processed_stages &&& st = 0
      rw [hK h t1]
      exact select_stage_unset c _ stages st t1 hs hne
  · intro hidle
    refine ⟨fun n => ?_, or_and_self_right _ _⟩
    have hidle' : ¬ (clearProcessing c (H.run h t1)).s ≠ 0 := by
      simpa [clearProcessing] using hidle
    rw [process_unfold, hbody, if_neg hidle']
    simp only [nextTask, haft, List.singleton_append]
    rfl

/-- Witness of C7. A new task with one pending event: the parser runs and the
call returns TRUE with the read-message bit unset. A new task without pending
events: the call marks the read-message bit and makes the tail call. -/
theorem process_after_successful_handler_witness :
    (∀ n, rspamd_task_process sampleConsts idleHandlers n 127 pendingTask
      = some ⟨true, ⟨0, 0, none, 1, ()⟩, [(.rspamd_message_parse, ⟨0, 1, none, 1, ()⟩)]⟩) ∧
    (∀ n, rspamd_task_process sampleConsts idleHandlers (n + 1) 127 newTask
      = (rspamd_task_process sampleConsts idleHandlers n 127 ⟨1, 0, none, 0, ()⟩).map
          fun o => { o with
            trace := (.rspamd_message_parse, ⟨0, 1, none, 0, ()⟩) :: o.trace }) :=
  ⟨((process_after_successful_handler sampleConsts idleHandlers 127 pendingTask 1
      ⟨0, 1, none, 1, ()⟩ .rspamd_message_parse (by decide) (by decide) (by decide)
      (by decide) (by decide) rfl (by decide) (by decide)).1 (by decide)).1,
    ((process_after_successful_handler sampleConsts idleHandlers 127 newTask 1
      ⟨0, 1, none, 0, ()⟩ .rspamd_message_parse (by decide) (by decide) (by decide)
      (by decide) (by decide) rfl (by decide) (by decide)).2 rfl).1⟩

theorem handlerOf_read_message (c : TaskConsts) :
    handlerOf c c.RSPAMD_TASK_STAGE_READ_MESSAGE = some .rspamd_message_parse := by
  simp [handlerOf]

theorem handlerOf_pre_filters (c : TaskConsts)
    (hne : c.RSPAMD_TASK_STAGE_PRE_FILTERS ≠ c.RSPAMD_TASK_STAGE_READ_MESSAGE) :
    handlerOf c c.RSPAMD_TASK_STAGE_PRE_FILTERS = some .rspamd_lua_call_pre_filters := by
  simp [handlerOf, hne]

/-- C8. Let a call of `rspamd_task_process` pass its guards and select the
read-message stage, and let `rspamd_message_parse` fail. Then the call returns
FALSE, has dispatched the parser and nothing else, and the read-message bit is
not set in `processed_stages` (the parser not writing `processed_stages`, and
`DONE` being another bit than read-message). -/
theorem process_parse_failure {ρ : Type} (c : TaskConsts) (H : Handlers ρ)
    (stages : Nat) (task t1 : Task ρ)
    (h1 : inProcessing c task = false) (h2 : RSPAMD_TASK_IS_PROCESSED c task = false)
    (hs : rspamd_task_select_processing_stage c
      { task with flags := task.flags ||| c.RSPAMD_TASK_FLAG_PROCESSING } stages
        = some (c.RSPAMD_TASK_STAGE_READ_MESSAGE, t1))
    (hfail : (H.rspamd_message_parse t1).1 = false)
    (hkeep : (H.rspamd_message_parse t1).2.processed_stages = t1.processed_stages)
    (hdisj : c.RSPAMD_TASK_STAGE_READ_MESSAGE &&& c.RSPAMD_TASK_STAGE_DONE = 0) :
    ∃ o, (∀ n, rspamd_task_process c H n stages task = some o) ∧
      o.ret = false ∧ o.trace = [(.rspamd_message_parse, t1)] ∧
      o.task.processed_stages &&& c.RSPAMD_TASK_STAGE_READ_MESSAGE = 0 := by
  have hh := handlerOf_read_message c
  have hd := dispatch_handler c H _ t1 _ hh
  have haft := afterSwitch_handler c H _ t1 _ hh
  refine ⟨⟨false, clearProcessing c (markSkipped c (H.rspamd_message_parse t1).2),
    [(.rspamd_message_parse, t1)]⟩, fun n => ?_, rfl, rfl, ?_⟩
  · rw [process_unfold, processBody_selected c H _ stages task _ t1 h1 h2 hs, haft, hd]
    simp [retOf, hfail, Handlers.run]
  · have hq : t1.processed_stages &&& c.RSPAMD_TASK_STAGE_READ_MESSAGE = 0 := by
      by_cases hne : c.RSPAMD_TASK_STAGE_READ_MESSAGE = c.RSPAMD_TASK_STAGE_DONE
      · rw [← hne, Nat.and_self] at hdisj
        rw [hdisj]; exact Nat.and_zero _
      · exact select_stage_unset c _ stages _ t1 hs hne
    show (markSkipped c (H.rspamd_message_parse t1).2).processed_stages
      &&& c.RSPAMD_TASK_STAGE_READ_MESSAGE = 0
    unfold markSkipped
    split_ifs
    · show ((H.rspamd_message_parse t1).2.processed_stages ||| c.RSPAMD_TASK_STAGE_DONE)
        &&& c.RSPAMD_TASK_STAGE_READ_MESSAGE = 0
      rw [or_and_distrib_right, hkeep, hq, Nat.and_comm c.RSPAMD_TASK_STAGE_DONE, hdisj]
      rfl
    · rw [hkeep, hq]

/-- Witness of C8: a new task, all stages requested, a parser that fails. -/
theorem process_parse_failure_witness :
    ∃ o, (∀ n, rspamd_task_process sampleConsts failingParse n 127 newTask = some o) ∧
      o.ret = false ∧ o.trace = [(.rspamd_message_parse, ⟨0, 1, none, 0, ()⟩)] ∧
      o.task.processed_stages &&& 1 = 0 :=
  process_parse_failure sampleConsts failingParse 127 newTask ⟨0, 1, none, 0, ()⟩
    (by decide) (by decide) (by decide) rfl rfl (by decide)

theorem clear_keeps_other_flag (x p s : Nat) (hs : s < 2 ^ 32) (hd : p &&& s = 0) :
    (x &&& (4294967295 ^^^ p)) &&& s = x &&& s := by
  apply Nat.eq_of_testBit_eq
  intro i
  have hpi : (p.testBit i && s.testBit i) = false := by
    rw [← Nat.testBit_and, hd, Nat.zero_testBit]
  simp only [Nat.testBit_and, Nat.testBit_xor, testBit_mask32]
  by_cases hi : i < 32
  · revert hpi
    cases x.testBit i <;> cases p.testBit i <;> cases s.testBit i <;> simp [hi]
  · rw [testBit_false_of_lt hs (Nat.le_of_not_lt hi)]
    simp

theorem isSkipped_clearProcessing {ρ : Type} (c : TaskConsts) (hF : c.FlagsOk) (t : Task ρ) :
    RSPAMD_TASK_IS_SKIPPED c (clearProcessing c t) = RSPAMD_TASK_IS_SKIPPED c t := by
  unfold RSPAMD_TASK_IS_SKIPPED clearProcessing
  simp only [clear_keeps_other_flag _ _ _ hF.2.2.1 hF.2.2.2]

/-- C9. Let a call of `rspamd_task_process` pass its guards and select the
pre-filters stage, and let the pre-filters leave the task with the `SKIPPED`
flag set. Then the call returns TRUE having dispatched the pre-filters and no
other handler, `DONE` is set in `processed_stages` and the task is still
`SKIPPED`; and every later call on that task, for every mask, returns at once
without dispatching a handler. -/
theorem process_prefilter_skip {ρ : Type} (c : TaskConsts) (H : Handlers ρ)
    (hF : c.FlagsOk) (hD : c.RSPAMD_TASK_STAGE_DONE ≠ 0)
    (hne : c.RSPAMD_TASK_STAGE_PRE_FILTERS ≠ c.RSPAMD_TASK_STAGE_READ_MESSAGE)
    (stages : Nat) (task t1 : Task ρ)
    (h1 : inProcessing c task = false) (h2 : RSPAMD_TASK_IS_PROCESSED c task = false)
    (hs : rspamd_task_select_processing_stage c
      { task with flags := task.flags ||| c.RSPAMD_TASK_FLAG_PROCESSING } stages
        = some (c.RSPAMD_TASK_STAGE_PRE_FILTERS, t1))
    (hskip : RSPAMD_TASK_IS_SKIPPED c (H.rspamd_lua_call_pre_filters t1) = true) :
    ∃ o, (∀ n, rspamd_task_process c H n stages task = some o) ∧
      o.ret = true ∧ o.trace = [(.rspamd_lua_call_pre_filters, t1)] ∧
      RSPAMD_TASK_IS_PROCESSED c o.task = true ∧ RSPAMD_TASK_IS_SKIPPED c o.task = true ∧
      ∀ n stages', rspamd_task_process c H n stages' o.task = some ⟨true, o.task, []⟩ := by
  have hh := handlerOf_pre_filters c hne
  have hd := dispatch_handler c H _ t1 _ hh
  have haft := afterSwitch_handler c H _ t1 _ hh
  have hrun : H.run .rspamd_lua_call_pre_filters t1 = H.rspamd_lua_call_pre_filters t1 := rfl
  have hdone : RSPAMD_TASK_IS_PROCESSED c
      (clearProcessing c (markSkipped c (H.rspamd_lua_call_pre_filters t1))) = true := by
    rw [isProcessed_clearProcessing, markSkipped_of_skipped c _ hskip]
    exact isProcessed_or_done c _ hD
  refine ⟨⟨true, clearProcessing c (markSkipped c (H.rspamd_lua_call_pre_filters t1)),
    [(.rspamd_lua_call_pre_filters, t1)]⟩, fun n => ?_, rfl, rfl, hdone, ?_, fun n stages' => ?_⟩
  · rw [process_unfold, processBody_selected c H _ stages task _ t1 h1 h2 hs, haft, hd, hrun]
    simp [retOf, hdone]
  · show RSPAMD_TASK_IS_SKIPPED c
      (clearProcessing c (markSkipped c (H.rspamd_lua_call_pre_filters t1))) = true
    rw [isSkipped_clearProcessing c hF, markSkipped_of_skipped c _ hskip]
    exact hskip
  · rw [process_unfold]
    exact processBody_guard c H _ stages' _ (Or.inr hdone)

theorem sampleConsts_flagsOk : sampleConsts.FlagsOk := by
  unfold TaskConsts.FlagsOk
  decide

theorem sampleConsts_stagesAt : sampleConsts.StagesAt 0 1 2 3 4 5 6 := by
  unfold TaskConsts.StagesAt
  decide

/-- Witness of C9: parse done, all stages requested, pre-filters that set
`SKIPPED`: the task ends with `DONE` (64) and none of the bits in between. -/
theorem process_prefilter_skip_witness :
    ∃ o, (∀ n, rspamd_task_process sampleConsts skippingPreFilters n 127
        { newTask with processed_stages := 1 } = some o) ∧
      o.ret = true ∧ o.trace = [(.rspamd_lua_call_pre_filters, ⟨1, 1, none, 0, ()⟩)] ∧
      RSPAMD_TASK_IS_PROCESSED sampleConsts o.task = true ∧
      RSPAMD_TASK_IS_SKIPPED sampleConsts o.task = true ∧
      ∀ n stages', rspamd_task_process sampleConsts skippingPreFilters n stages' o.task
        = some ⟨true, o.task, []⟩ :=
  process_prefilter_skip sampleConsts skippingPreFilters sampleConsts_flagsOk (by decide)
    (by decide) 127 { newTask with processed_stages := 1 } ⟨1, 1, none, 0, ()⟩
    (by decide) (by decide) (by decide) (by decide)

/-! ## A task that is `SKIPPED` on entry (C10) -/

theorem stageIndex_le_of_lt (p n : Nat) (h : p < 2 ^ n) : stageIndex p ≤ n := by
  by_cases hp : p = 0
  · subst hp; exact Nat.zero_le _
  · rw [stageIndex_of_bounds p.log2 p (Nat.log2_self_le hp) Nat.lt_log2_self]
    exact (Nat.log2_lt hp).2 h

theorem stageIndex_or_next (p : Nat) :
    stageIndex (p ||| 2 ^ stageIndex p) = stageIndex p + 1 := by
  apply stageIndex_of_bounds
  · apply Nat.testBit_implies_ge
    rw [Nat.testBit_or, Nat.testBit_two_pow_self, Bool.or_true]
  · apply Nat.or_lt_two_pow
    · exact Nat.lt_trans (lt_two_pow_stageIndex p)
        (Nat.pow_lt_pow_right (by decide) (Nat.lt_succ_self _))
    · exact Nat.pow_lt_pow_right (by decide) (Nat.lt_succ_self _)

/-- The selection returns a stage whenever `processed_stages` and `DONE` lie
in the range where the shift is defined. -/
theorem selectStage_total (c : TaskConsts) (hD : c.RSPAMD_TASK_STAGE_DONE ≤ 2 ^ 30)
    (stages : Nat) :
    ∀ (g n p : Nat), stageIndex p + g = 30 → g < n →
      ∃ st q, selectStage c stages n p = some (st, q) := by
  intro g
  induction g with
  | zero =>
    intro n p hp hn
    obtain ⟨n, rfl⟩ : ∃ m, n = m + 1 := ⟨n - 1, by omega⟩
    simp only [selectStage, Nat.one_shiftLeft]
    rw [if_neg (by omega)]
    have hge : ¬ 2 ^ stageIndex p < c.RSPAMD_TASK_STAGE_DONE := by
      have : stageIndex p = 30 := by omega
      rw [this]; omega
    rw [if_neg hge]
    split_ifs
    · exact ⟨_, _, rfl⟩
    · exact ⟨_, _, rfl⟩
  | succ g ih =>
    intro n p hp hn
    obtain ⟨n, rfl⟩ : ∃ m, n = m + 1 := ⟨n - 1, by omega⟩
    simp only [selectStage, Nat.one_shiftLeft]
    rw [if_neg (by omega)]
    split_ifs
    · exact ⟨_, _, rfl⟩
    · exact ih n _ (by rw [stageIndex_or_next]; omega) (by omega)
    · exact ⟨_, _, rfl⟩

theorem select_total {ρ : Type} (c : TaskConsts) (hD : c.RSPAMD_TASK_STAGE_DONE ≤ 2 ^ 30)
    (stages : Nat) (task : Task ρ) (hp : task.processed_stages < 2 ^ 30) :
    ∃ st t1, rspamd_task_select_processing_stage c task stages = some (st, t1) := by
  have hle := stageIndex_le_of_lt _ _ hp
  obtain ⟨st, q, h⟩ := selectStage_total c hD stages (30 - stageIndex task.processed_stages)
    32 task.processed_stages (by omega) (by omega)
  exact ⟨st, { task with processed_stages := q }, by
    unfold rspamd_task_select_processing_stage
    rw [h]; rfl⟩

theorem isSkipped_or_flag {ρ : Type} (c : TaskConsts) (t : Task ρ) (x : Nat)
    (h : RSPAMD_TASK_IS_SKIPPED c t = true) :
    RSPAMD_TASK_IS_SKIPPED c { t with flags := t.flags ||| x } = true := by
  unfold RSPAMD_TASK_IS_SKIPPED at h ⊢
  simp only [bne_iff_ne, ne_eq] at h ⊢
  intro h0
  apply h
  apply Nat.eq_of_testBit_eq
  intro i
  have hi := congrArg (fun v => Nat.testBit v i) h0
  simp only [Nat.testBit_and, Nat.testBit_or, Nat.zero_testBit] at hi ⊢
  revert hi
  cases t.flags.testBit i <;> cases x.testBit i <;>
    cases c.RSPAMD_TASK_FLAG_SKIP.testBit i <;> simp

/-- C10, as the code has it. Let a task have the `SKIPPED` flag set on entry
(`PROCESSING` clear, `DONE` unset, `processed_stages` within the stage bits),
and let the handlers leave `SKIPPED` set. Then a call of `rspamd_task_process`
selects a stage as usual and dispatches its handler, if it has one: the
`SKIPPED` test comes after the `switch`. It then sets `DONE` and returns
without a tail call, so at most one handler is dispatched. Of the bits that
were not processed, it sets `DONE` and those that the selection passed over as
not requested, and no other. -/
theorem process_skipped_on_entry {ρ : Type} (c : TaskConsts) (H : Handlers ρ)
    (hD0 : c.RSPAMD_TASK_STAGE_DONE ≠ 0) (hD : c.RSPAMD_TASK_STAGE_DONE ≤ 2 ^ 30)
    (hK : H.KeepStages)
    (hS : ∀ h t, RSPAMD_TASK_IS_SKIPPED c t = true → RSPAMD_TASK_IS_SKIPPED c (H.run h t) = true)
    (stages : Nat) (task : Task ρ)
    (h1 : inProcessing c task = false) (h2 : RSPAMD_TASK_IS_PROCESSED c task = false)
    (hsk : RSPAMD_TASK_IS_SKIPPED c task = true) (hp : task.processed_stages < 2 ^ 30) :
    ∃ st t1 o, rspamd_task_select_processing_stage c
        { task with flags := task.flags ||| c.RSPAMD_TASK_FLAG_PROCESSING } stages
          = some (st, t1) ∧
      (∀ n, rspamd_task_process c H n stages task = some o) ∧
      o.trace = (match handlerOf c st with
        | some h => [(h, t1)]
        | none => []) ∧
      RSPAMD_TASK_IS_PROCESSED c o.task = true ∧
      o.task.processed_stages = t1.processed_stages ||| c.RSPAMD_TASK_STAGE_DONE := by
  obtain ⟨st, t1, hs⟩ := select_total c hD stages
    { task with flags := task.flags ||| c.RSPAMD_TASK_FLAG_PROCESSING } hp
  have hsk1 : RSPAMD_TASK_IS_SKIPPED c t1 = true := by
    unfold RSPAMD_TASK_IS_SKIPPED
    rw [(select_flags c _ stages st t1 hs).1]
    exact isSkipped_or_flag c task _ hsk
  -- the task after the `switch` is still `SKIPPED`, with the stages of `t1` or `DONE` added
  have hdisp : RSPAMD_TASK_IS_SKIPPED c (dispatch c H st t1).2.1 = true ∧
      ((dispatch c H st t1).2.1.processed_stages = t1.processed_stages ∨
        (dispatch c H st t1).2.1.processed_stages
          = t1.processed_stages ||| c.RSPAMD_TASK_STAGE_DONE) ∧
      (dispatch c H st t1).2.2 = (match handlerOf c st with
        | some h => [(h, t1)]
        | none => []) := by
    rcases dispatch_task c H st t1 with ⟨h, hh, hd⟩ | ⟨hh, _, htr, hd | ⟨_, hd⟩⟩
    · rw [hd, hh]; exact ⟨hS h t1 hsk1, Or.inl (hK h t1), rfl⟩
    · rw [hd, htr, hh]; exact ⟨hsk1, Or.inl rfl, rfl⟩
    · rw [hd, htr, hh]; exact ⟨hsk1, Or.inr rfl, rfl⟩
  obtain ⟨hd1, hd2, hd3⟩ := hdisp
  have hstages : (afterSwitch c H st t1).processed_stages
      = t1.processed_stages ||| c.RSPAMD_TASK_STAGE_DONE := by
    unfold afterSwitch
    rw [(clearProcessing_stages c _).1, markSkipped_of_skipped c _ hd1]
    rcases hd2 with hd2 | hd2
    · show (dispatch c H st t1).2.1.processed_stages ||| _ = _
      rw [hd2]
    · show (dispatch c H st t1).2.1.processed_stages ||| _ = _
      rw [hd2, Nat.or_assoc, Nat.or_self]
  have hdone : RSPAMD_TASK_IS_PROCESSED c (afterSwitch c H st t1) = true := by
    unfold RSPAMD_TASK_IS_PROCESSED
    rw [hstages, or_and_self_right]
    simpa using hD0
  refine ⟨st, t1, ⟨(dispatch c H st t1).1, afterSwitch c H st t1, (dispatch c H st t1).2.2⟩,
    hs, fun n => ?_, hd3, hdone, hstages⟩
  rw [process_unfold, processBody_selected c H _ stages task st t1 h1 h2 hs, hdone]
  simp

/-- Witness of C10 as amended: a task with the first stage processed and
`SKIPPED` set, all stages requested. -/
theorem process_skipped_on_entry_witness :
    ∃ st t1 o, rspamd_task_select_processing_stage sampleConsts
        { skippedTask with flags := skippedTask.flags ||| 1 } 127 = some (st, t1) ∧
      (∀ n, rspamd_task_process sampleConsts idleHandlers n 127 skippedTask = some o) ∧
      o.trace = (match handlerOf sampleConsts st with
        | some h => [(h, t1)]
        | none => []) ∧
      RSPAMD_TASK_IS_PROCESSED sampleConsts o.task = true ∧
      o.task.processed_stages = t1.processed_stages ||| 64 :=
  process_skipped_on_entry sampleConsts idleHandlers (by decide) (by decide)
    (fun h t => by cases h <;> rfl) (fun h t ht => by cases h <;> exact ht)
    127 skippedTask (by decide) (by decide) (by decide) (by decide)

/-- C10 as stated fails. A task with the first stage processed and `SKIPPED`
set (`PROCESSING` clear, `DONE` unset), all stages requested: the call does
invoke a stage handler, the pre-filters, and it returns with `DONE` added to
`processed_stages` and nothing else, none of the five bits between the first
stage and `DONE` being set. -/
theorem skipped_task_still_dispatches :
    RSPAMD_TASK_IS_SKIPPED sampleConsts skippedTask = true ∧
    inProcessing sampleConsts skippedTask = false ∧
    RSPAMD_TASK_IS_PROCESSED sampleConsts skippedTask = false ∧
    (∀ n, rspamd_task_process sampleConsts idleHandlers n 127 skippedTask
      = some ⟨true, ⟨65, 2, none, 0, ()⟩,
          [(.rspamd_lua_call_pre_filters, ⟨1, 3, none, 0, ()⟩)]⟩) ∧
    (65 : Nat) &&& 62 = 0 := by
  refine ⟨by decide, by decide, by decide, fun n => ?_, by decide⟩
  cases n <;> rfl

/-! ## The full pipeline (C1) -/

theorem two_pow_eq_iff (a b : Nat) : (2 : Nat) ^ a = 2 ^ b ↔ a = b :=
  ⟨fun h => Nat.pow_right_injective (Nat.le_refl 2) h, fun h => by rw [h]⟩

theorem traceFrom_skip (r p f k m o i j : Nat) (hij : i ≤ j)
    (hr : ¬ (i ≤ r ∧ r < j)) (hp : ¬ (i ≤ p ∧ p < j)) (hf : ¬ (i ≤ f ∧ f < j))
    (hk : ¬ (i ≤ k ∧ k < j)) (hm : ¬ (i ≤ m ∧ m < j)) (ho : ¬ (i ≤ o ∧ o < j)) :
    traceFrom r p f k m o i = traceFrom r p f k m o j := by
  have e1 : i ≤ r ↔ j ≤ r := by omega
  have e2 : i ≤ p ↔ j ≤ p := by omega
  have e3 : i ≤ f ↔ j ≤ f := by omega
  have e4 : i ≤ k ↔ j ≤ k := by omega
  have e5 : i ≤ m ↔ j ≤ m := by omega
  have e6 : i ≤ o ↔ j ≤ o := by omega
  simp only [traceFrom, e1, e2, e3, e4, e5, e6]

theorem traceFrom_step (c : TaskConsts) (r p f k m o d : Nat)
    (hC : c.StagesAt r p f k m o d) (j : Nat) :
    traceFrom r p f k m o j =
      (match handlerOf c (2 ^ j) with
        | some h => [h]
        | none => []) ++ traceFrom r p f k m o (j + 1) := by
  obtain ⟨c1, c2, c3, c4, c5, c6, _, o1, o2, o3, o4, o5, _, _⟩ := hC
  have hpos : j < r ∨ j = r ∨ (r < j ∧ j < p) ∨ j = p ∨ (p < j ∧ j < f) ∨ j = f ∨
      (f < j ∧ j < k) ∨ j = k ∨ (k < j ∧ j < m) ∨ j = m ∨ (m < j ∧ j < o) ∨ j = o ∨
      o < j := by omega
  simp only [handlerOf, c1, c2, c3, c4, c5, c6, two_pow_eq_iff, traceFrom]
  rcases hpos with h | h | h | h | h | h | h | h | h | h | h | h | h <;>
    simp (disch := omega) only [if_pos, if_neg, List.nil_append, List.append_nil,
      List.singleton_append, List.cons_append]

theorem isProcessed_run {ρ : Type} (c : TaskConsts) (d i : Nat)
    (hD : c.RSPAMD_TASK_STAGE_DONE = 2 ^ d) (hi : i ≤ d) (t : Task ρ)
    (ht : t.processed_stages = 2 ^ i - 1) : RSPAMD_TASK_IS_PROCESSED c t = false := by
  unfold RSPAMD_TASK_IS_PROCESSED
  rw [ht, hD]
  have h0 : ¬ ((2 ^ i - 1) &&& 2 ^ d ≠ 0) := by
    rw [and_two_pow_ne_zero, Nat.testBit_two_pow_sub_one]
    simpa using hi
  simpa using h0

theorem isSkipped_or_processing {ρ : Type} (c : TaskConsts) (hF : c.FlagsOk) (t : Task ρ) :
    RSPAMD_TASK_IS_SKIPPED c { t with flags := t.flags ||| c.RSPAMD_TASK_FLAG_PROCESSING }
      = RSPAMD_TASK_IS_SKIPPED c t := by
  unfold RSPAMD_TASK_IS_SKIPPED
  simp only [or_and_distrib_right, hF.2.2.2, Nat.or_zero]

/-- The tail call: when the `switch` succeeds and leaves the task neither
`SKIPPED` nor `DONE` and without pending events, the call continues on
`nextTask`. -/
theorem process_continue {ρ : Type} (c : TaskConsts) (H : Handlers ρ) (n stages : Nat)
    (task : Task ρ) (st : Nat) (t1 : Task ρ)
    (h1 : inProcessing c task = false) (h2 : RSPAMD_TASK_IS_PROCESSED c task = false)
    (hs : rspamd_task_select_processing_stage c
      { task with flags := task.flags ||| c.RSPAMD_TASK_FLAG_PROCESSING } stages
        = some (st, t1))
    (hret : (dispatch c H st t1).1 = true)
    (hsk : RSPAMD_TASK_IS_SKIPPED c (dispatch c H st t1).2.1 = false)
    (hnd : RSPAMD_TASK_IS_PROCESSED c (dispatch c H st t1).2.1 = false)
    (hs0 : (dispatch c H st t1).2.1.s = 0) :
    afterSwitch c H st t1 = clearProcessing c (dispatch c H st t1).2.1 ∧
    rspamd_task_process c H (n + 1) stages task =
      (rspamd_task_process c H n stages (nextTask c H st t1)).map
        fun o => { o with trace := (dispatch c H st t1).2.2 ++ o.trace } := by
  have haft : afterSwitch c H st t1 = clearProcessing c (dispatch c H st t1).2.1 := by
    unfold afterSwitch
    rw [markSkipped_of_not_skipped c _ hsk]
  refine ⟨haft, ?_⟩
  rw [process_unfold, processBody_selected c H _ stages task st t1 h1 h2 hs, hret, haft,
    isProcessed_clearProcessing, hnd]
  have hs0' : ¬ (clearProcessing c (dispatch c H st t1).2.1).s ≠ 0 := by
    simpa [clearProcessing] using hs0
  rw [if_neg (by simp), if_neg hs0']

/-- From a task whose processed stages are the run `2 ^ i - 1`, the call runs
the handlers of the remaining stages in order and ends with `DONE`. -/
theorem process_from_run {ρ : Type} (c : TaskConsts) (H : Handlers ρ)
    (r p f k m o d : Nat) (hC : c.StagesAt r p f k m o d) (hF : c.FlagsOk)
    (hK : H.KeepStages) (hOk : H.Succeed) (hN : H.NoPending) (hS : H.NeverSkip c)
    (stages : Nat)
    (hreq : stages.testBit r = true ∧ stages.testBit p = true ∧ stages.testBit f = true ∧
      stages.testBit k = true ∧ stages.testBit m = true ∧ stages.testBit o = true) :
    ∀ (g i n : Nat) (task : Task ρ), i + g = d → g ≤ n →
      task.processed_stages = 2 ^ i - 1 → inProcessing c task = false →
      RSPAMD_TASK_IS_SKIPPED c task = false → task.s = 0 →
      ∃ out, rspamd_task_process c H n stages task = some out ∧ out.ret = true ∧
        RSPAMD_TASK_IS_PROCESSED c out.task = true ∧
        out.trace.map Prod.fst = traceFrom r p f k m o i := by
  have hC' := hC
  obtain ⟨c1, c2, c3, c4, c5, c6, hD, o1, o2, o3, o4, o5, o6, hd⟩ := hC'
  obtain ⟨q1, q2, q3, q4, q5, q6⟩ := hreq
  have hD0 : c.RSPAMD_TASK_STAGE_DONE ≠ 0 := by
    rw [hD]; exact Nat.pos_iff_ne_zero.1 (Nat.two_pow_pos d)
  intro g
  induction g using Nat.strong_induction_on with
  | _ g ih =>
    intro i n task hig hgn hrun h1 hns hs0
    have h2 : RSPAMD_TASK_IS_PROCESSED c task = false :=
      isProcessed_run c d i hD (by omega) task hrun
    obtain ⟨j, hij, hjd, hsel, hnone, hbit⟩ :=
      selectStage_run c d hD hd stages (d - i) i 32 (by omega) (by omega)
    have hs : rspamd_task_select_processing_stage c
        { task with flags := task.flags ||| c.RSPAMD_TASK_FLAG_PROCESSING } stages
          = some (2 ^ j, { task with
              flags := task.flags ||| c.RSPAMD_TASK_FLAG_PROCESSING
              processed_stages := 2 ^ j - 1 }) := by
      unfold rspamd_task_select_processing_stage
      show Option.map _ (selectStage c stages 32 task.processed_stages) = _
      rw [hrun, hsel]
      rfl
    generalize ht1 : ({ task with
        flags := task.flags ||| c.RSPAMD_TASK_FLAG_PROCESSING
        processed_stages := 2 ^ j - 1 } : Task ρ) = t1 at hs
    have t1p : t1.processed_stages = 2 ^ j - 1 := by rw [← ht1]
    have t1s : t1.s = 0 := by rw [← ht1]; exact hs0
    have t1k : RSPAMD_TASK_IS_SKIPPED c t1 = false := by
      rw [← ht1]; exact (isSkipped_or_processing c hF task).trans hns
    have hskip : traceFrom r p f k m o i = traceFrom r p f k m o j := by
      apply traceFrom_skip r p f k m o i j hij
      · rintro ⟨a, b⟩; rw [hnone r a b] at q1; exact absurd q1 (by decide)
      · rintro ⟨a, b⟩; rw [hnone p a b] at q2; exact absurd q2 (by decide)
      · rintro ⟨a, b⟩; rw [hnone f a b] at q3; exact absurd q3 (by decide)
      · rintro ⟨a, b⟩; rw [hnone k a b] at q4; exact absurd q4 (by decide)
      · rintro ⟨a, b⟩; rw [hnone m a b] at q5; exact absurd q5 (by decide)
      · rintro ⟨a, b⟩; rw [hnone o a b] at q6; exact absurd q6 (by decide)
    rw [hskip]
    by_cases hjd' : j = d
    · -- the stage selected is `DONE`
      subst hjd'
      have hh : handlerOf c (2 ^ j) = none := by
        simp (disch := omega) only [handlerOf, c1, c2, c3, c4, c5, c6, two_pow_eq_iff, if_neg]
      have hdis := dispatch_none c H (2 ^ j) t1 hh
      rw [if_pos hD.symm] at hdis
      have haft : afterSwitch c H (2 ^ j) t1 = clearProcessing c
          { t1 with processed_stages := t1.processed_stages ||| c.RSPAMD_TASK_STAGE_DONE } := by
        unfold afterSwitch
        rw [hdis]
        show clearProcessing c (markSkipped c _) = _
        rw [markSkipped_of_not_skipped c
          { t1 with processed_stages := t1.processed_stages ||| c.RSPAMD_TASK_STAGE_DONE } t1k]
      have hdone : RSPAMD_TASK_IS_PROCESSED c (afterSwitch c H (2 ^ j) t1) = true := by
        rw [haft, isProcessed_clearProcessing]
        exact isProcessed_or_done c t1 hD0
      refine ⟨⟨true, afterSwitch c H (2 ^ j) t1, []⟩, ?_, rfl, hdone, ?_⟩
      · rw [process_unfold, processBody_selected c H _ stages task _ t1 h1 h2 hs, hdone, hdis]
        simp
      · simp (disch := omega) only [traceFrom, if_neg, List.append_nil, List.map_nil]
    · -- a stage below `DONE`
      have hjlt : j < d := by omega
      have hneD : (2 : Nat) ^ j ≠ c.RSPAMD_TASK_STAGE_DONE := by
        rw [hD, Ne, two_pow_eq_iff]; omega
      have hX : (dispatch c H (2 ^ j) t1).1 = true ∧
          RSPAMD_TASK_IS_SKIPPED c (dispatch c H (2 ^ j) t1).2.1 = false ∧
          (dispatch c H (2 ^ j) t1).2.1.processed_stages = 2 ^ j - 1 ∧
          (dispatch c H (2 ^ j) t1).2.1.s = 0 ∧
          (dispatch c H (2 ^ j) t1).2.2.map Prod.fst =
            (match handlerOf c (2 ^ j) with
              | some h => [h]
              | none => []) := by
        rcases dispatch_task c H (2 ^ j) t1 with ⟨h, hh, hdis⟩ | ⟨hh, hret, htr, hdis | ⟨he, _⟩⟩
        · rw [hdis, hh]
          exact ⟨hOk h t1, hS h t1 t1k, (hK h t1).trans t1p, hN h t1 t1s, rfl⟩
        · rw [hret, htr, hdis, hh]
          exact ⟨rfl, t1k, t1p, t1s, rfl⟩
        · exact absurd he hneD
      obtain ⟨x1, x2, x3, x4, x5⟩ := hX
      have x6 : RSPAMD_TASK_IS_PROCESSED c (dispatch c H (2 ^ j) t1).2.1 = false :=
        isProcessed_run c d j hD hjd _ x3
      obtain ⟨n, rfl⟩ : ∃ n', n = n' + 1 := ⟨n - 1, by omega⟩
      obtain ⟨haft, hproc⟩ :=
        process_continue c H n stages task (2 ^ j) t1 h1 h2 hs x1 x2 x6 x4
      have hnext : ∃ out, rspamd_task_process c H n stages (nextTask c H (2 ^ j) t1) = some out ∧
          out.ret = true ∧ RSPAMD_TASK_IS_PROCESSED c out.task = true ∧
          out.trace.map Prod.fst = traceFrom r p f k m o (j + 1) := by
        apply ih (d - (j + 1)) (by omega) (j + 1) n (nextTask c H (2 ^ j) t1)
          (by omega) (by omega)
        · show (afterSwitch c H (2 ^ j) t1).processed_stages ||| 2 ^ j = _
          rw [haft, (clearProcessing_stages c _).1, x3, run_or_next]
        · exact afterSwitch_not_processing c H hF.2.1 (2 ^ j) t1
        · show RSPAMD_TASK_IS_SKIPPED c (afterSwitch c H (2 ^ j) t1) = false
          rw [haft, isSkipped_clearProcessing c hF, x2]
        · show (afterSwitch c H (2 ^ j) t1).s = 0
          rw [haft, (clearProcessing_stages c _).2.1, x4]
      obtain ⟨out, ho1, ho2, ho3, ho4⟩ := hnext
      refine ⟨{ out with trace := (dispatch c H (2 ^ j) t1).2.2 ++ out.trace }, ?_, ho2, ho3, ?_⟩
      · rw [hproc, ho1]; rfl
      · show List.map Prod.fst ((dispatch c H (2 ^ j) t1).2.2 ++ out.trace) = _
        rw [List.map_append, x5, ho4, traceFrom_step c r p f k m o d hC j]

/-- C1. Take a new task: `processed_stages = 0`, `PROCESSING` and `SKIPPED`
clear, no event pending in its session. Let the stage handlers all succeed,
leave no event pending, not set `SKIPPED` and not write `processed_stages`, and
let the requested mask contain the six stages that have a handler. Then a
single call of `rspamd_task_process` returns TRUE with `DONE` set, and the
handlers it has dispatched are the message parser, the pre-filters, the
filters, the classifier, the composites and the post-filters, in exactly that
order and each exactly once. The stage constants are single bits in pipeline
order (`StagesAt`); `d`, the position of `DONE`, bounds the number of tail
calls that the call makes. -/
theorem process_runs_all_stages {ρ : Type} (c : TaskConsts) (H : Handlers ρ)
    (r p f k m o d : Nat) (hC : c.StagesAt r p f k m o d) (hF : c.FlagsOk)
    (hK : H.KeepStages) (hOk : H.Succeed) (hN : H.NoPending) (hS : H.NeverSkip c)
    (stages : Nat)
    (hreq : stages.testBit r = true ∧ stages.testBit p = true ∧ stages.testBit f = true ∧
      stages.testBit k = true ∧ stages.testBit m = true ∧ stages.testBit o = true)
    (task : Task ρ) (hnew : task.processed_stages = 0)
    (h1 : inProcessing c task = false) (hns : RSPAMD_TASK_IS_SKIPPED c task = false)
    (hs0 : task.s = 0) (n : Nat) (hn : d ≤ n) :
    ∃ out, rspamd_task_process c H n stages task = some out ∧ out.ret = true ∧
      RSPAMD_TASK_IS_PROCESSED c out.task = true ∧
      out.trace.map Prod.fst =
        [.rspamd_message_parse, .rspamd_lua_call_pre_filters, .rspamd_process_filters,
          .rspamd_stat_classify, .rspamd_make_composites, .rspamd_lua_call_post_filters] := by
  obtain ⟨out, h⟩ := process_from_run c H r p f k m o d hC hF hK hOk hN hS stages hreq
    d 0 n task (by omega) hn (by rw [hnew]; rfl) h1 hns hs0
  refine ⟨out, h.1, h.2.1, h.2.2.1, ?_⟩
  rw [h.2.2.2]
  simp [traceFrom]

/-- Witness of C1: the sample constants and handlers, the new task, the mask
of all seven stage bits. -/
theorem process_runs_all_stages_witness :
    ∃ out, rspamd_task_process sampleConsts idleHandlers 6 127 newTask = some out ∧
      out.ret = true ∧ RSPAMD_TASK_IS_PROCESSED sampleConsts out.task = true ∧
      out.trace.map Prod.fst =
        [.rspamd_message_parse, .rspamd_lua_call_pre_filters, .rspamd_process_filters,
          .rspamd_stat_classify, .rspamd_make_composites, .rspamd_lua_call_post_filters] :=
  process_runs_all_stages sampleConsts idleHandlers 0 1 2 3 4 5 6 sampleConsts_stagesAt
    sampleConsts_flagsOk (fun h t => by cases h <;> rfl) (fun h t => by cases h <;> rfl)
    (fun h t ht => by cases h <;> exact ht) (fun h t ht => by cases h <;> exact ht)
    127 (by decide) newTask rfl (by decide) (by decide) rfl 6 (by decide)

/-! ## The bounds in the embedding are never reached -/

theorem selectStage_succ (c : TaskConsts) (stages n p : Nat) :
    selectStage c stages (n + 1) p =
      if 31 ≤ stageIndex p then none
      else if stages &&& 2 ^ stageIndex p ≠ 0 then some (2 ^ stageIndex p, p)
      else if 2 ^ stageIndex p < c.RSPAMD_TASK_STAGE_DONE then
        selectStage c stages n (p ||| 2 ^ stageIndex p)
      else some (c.RSPAMD_TASK_STAGE_DONE, p) := by
  simp only [selectStage, Nat.one_shiftLeft]

theorem selectStage_fuel_aux (c : TaskConsts) (stages : Nat) :
    ∀ (g n p : Nat), 31 - stageIndex p = g → g < n →
      selectStage c stages n p = selectStage c stages (g + 1) p := by
  intro g
  induction g with
  | zero =>
    intro n p hg hn
    obtain ⟨n, rfl⟩ : ∃ m, n = m + 1 := ⟨n - 1, by omega⟩
    have h31 : 31 ≤ stageIndex p := by omega
    rw [selectStage_succ, selectStage_succ, if_pos h31, if_pos h31]
  | succ g ih =>
    intro n p hg hn
    obtain ⟨n, rfl⟩ : ∃ m, n = m + 1 := ⟨n - 1, by omega⟩
    have h31 : ¬ 31 ≤ stageIndex p := by omega
    rw [selectStage_succ, selectStage_succ c stages (g + 1) p, if_neg h31, if_neg h31]
    split_ifs
    · rfl
    · exact ih n _ (by rw [stageIndex_or_next]; omega) (by omega)
    · rfl

/-- The depth 32 given to the recursion of the stage selection is never used
up: a larger bound gives the same result, so `none` is the undefined shift. -/
theorem selectStage_fuel (c : TaskConsts) (stages n p : Nat) (hn : 32 ≤ n) :
    selectStage c stages n p = selectStage c stages 32 p := by
  rw [selectStage_fuel_aux c stages (31 - stageIndex p) n p rfl (by omega),
    selectStage_fuel_aux c stages (31 - stageIndex p) 32 p rfl (by omega)]

/-- The loop of the stage selection computes the bit length: for a non-zero
`processed_stages` the exponent is `log2 processed_stages + 1`. -/
theorem stageIndex_eq_log2 (p : Nat) (hp : p ≠ 0) : stageIndex p = p.log2 + 1 :=
  stageIndex_of_bounds p.log2 p (Nat.log2_self_le hp) Nat.lt_log2_self

/-! ## Termination -/

theorem selectStage_index (c : TaskConsts) (d : Nat)
    (hD : c.RSPAMD_TASK_STAGE_DONE = 2 ^ d) (stages : Nat) :
    ∀ (n p st q : Nat), selectStage c stages n p = some (st, q) → stageIndex p ≤ d →
      stageIndex p ≤ stageIndex q ∧ stageIndex q ≤ d := by
  intro n
  induction n with
  | zero => intro p st q h; simp [selectStage] at h
  | succ n ih =>
    intro p st q h hp
    rw [selectStage_succ] at h
    split_ifs at h with h1 h2 h3
    · simp only [Option.some.injEq, Prod.mk.injEq] at h
      rw [← h.2]; exact ⟨Nat.le_refl _, hp⟩
    · rw [hD] at h3
      have hlt : stageIndex p < d := (Nat.pow_lt_pow_iff_right (by decide)).1 h3
      have := ih _ st q h (by rw [stageIndex_or_next]; omega)
      rw [stageIndex_or_next] at this
      exact ⟨by omega, this.2⟩
    · simp only [Option.some.injEq, Prod.mk.injEq] at h
      rw [← h.2]; exact ⟨Nat.le_refl _, hp⟩

theorem handlerOf_filters (c : TaskConsts)
    (h1 : c.RSPAMD_TASK_STAGE_FILTERS ≠ c.RSPAMD_TASK_STAGE_READ_MESSAGE)
    (h2 : c.RSPAMD_TASK_STAGE_FILTERS ≠ c.RSPAMD_TASK_STAGE_PRE_FILTERS) :
    handlerOf c c.RSPAMD_TASK_STAGE_FILTERS = some .rspamd_process_filters := by
  simp [handlerOf, h1, h2]

/-- C12, as the code has it. Let a call of `rspamd_task_process` pass its
guards and select the filters stage, and let
`rspamd_symbols_cache_process_symbols` report failure. Then `ret` is set to
FALSE and the call returns FALSE, exactly as for a failing parser: it has
dispatched the filters handler and nothing else (the classifiers stage is not
reached in that call), and the filters bit is not set in `processed_stages`
(the handler not writing `processed_stages`, `DONE` being another bit). -/
theorem process_filters_failure {ρ : Type} (c : TaskConsts) (H : Handlers ρ)
    (hn1 : c.RSPAMD_TASK_STAGE_FILTERS ≠ c.RSPAMD_TASK_STAGE_READ_MESSAGE)
    (hn2 : c.RSPAMD_TASK_STAGE_FILTERS ≠ c.RSPAMD_TASK_STAGE_PRE_FILTERS)
    (stages : Nat) (task t1 : Task ρ)
    (h1 : inProcessing c task = false) (h2 : RSPAMD_TASK_IS_PROCESSED c task = false)
    (hs : rspamd_task_select_processing_stage c
      { task with flags := task.flags ||| c.RSPAMD_TASK_FLAG_PROCESSING } stages
        = some (c.RSPAMD_TASK_STAGE_FILTERS, t1))
    (hfail : (H.rspamd_symbols_cache_process_symbols t1).1 = false)
    (hkeep : (H.rspamd_symbols_cache_process_symbols t1).2.processed_stages
      = t1.processed_stages)
    (hdisj : c.RSPAMD_TASK_STAGE_FILTERS &&& c.RSPAMD_TASK_STAGE_DONE = 0) :
    ∃ o, (∀ n, rspamd_task_process c H n stages task = some o) ∧
      o.ret = false ∧ o.trace = [(.rspamd_process_filters, t1)] ∧
      o.task.processed_stages &&& c.RSPAMD_TASK_STAGE_FILTERS = 0 := by
  have hh := handlerOf_filters c hn1 hn2
  have hd := dispatch_handler c H _ t1 _ hh
  have haft := afterSwitch_handler c H _ t1 _ hh
  refine ⟨⟨false, clearProcessing c (markSkipped c (H.rspamd_symbols_cache_process_symbols t1).2),
    [(.rspamd_process_filters, t1)]⟩, fun n => ?_, rfl, rfl, ?_⟩
  · rw [process_unfold, processBody_selected c H _ stages task _ t1 h1 h2 hs, haft, hd]
    simp [retOf, hfail, Handlers.run]
  · have hq : t1.processed_stages &&& c.RSPAMD_TASK_STAGE_FILTERS = 0 := by
      by_cases hne : c.RSPAMD_TASK_STAGE_FILTERS = c.RSPAMD_TASK_STAGE_DONE
      · rw [← hne, Nat.and_self] at hdisj
        rw [hdisj]; exact Nat.and_zero _
      · exact select_stage_unset c _ stages _ t1 hs hne
    show (markSkipped c (H.rspamd_symbols_cache_process_symbols t1).2).processed_stages
      &&& c.RSPAMD_TASK_STAGE_FILTERS = 0
    unfold markSkipped
    split_ifs
    · show ((H.rspamd_symbols_cache_process_symbols t1).2.processed_stages
        ||| c.RSPAMD_TASK_STAGE_DONE) &&& c.RSPAMD_TASK_STAGE_FILTERS = 0
      rw [or_and_distrib_right, hkeep, hq, Nat.and_comm c.RSPAMD_TASK_STAGE_DONE, hdisj]
      rfl
    · rw [hkeep, hq]

/-- Witness of C12 as amended: parse and pre-filters done, all stages
requested, a symbols cache that reports failure. -/
theorem process_filters_failure_witness :
    ∃ o, (∀ n, rspamd_task_process sampleConsts failingFilters n 127
        { newTask with processed_stages := 3 } = some o) ∧
      o.ret = false ∧ o.trace = [(.rspamd_process_filters, ⟨3, 1, none, 0, ()⟩)] ∧
      o.task.processed_stages &&& 4 = 0 :=
  process_filters_failure sampleConsts failingFilters (by decide) (by decide) 127
    { newTask with processed_stages := 3 } ⟨3, 1, none, 0, ()⟩
    (by decide) (by decide) (by decide) rfl rfl (by decide)

/-- C12 as stated fails. Parse and pre-filters done, all stages requested, no
event pending, and a symbols cache that reports failure: the call, with
eight tail calls allowed (more than the pipeline has stages), returns FALSE,
the filters bit (4) is not marked and the classifier is not dispatched. -/
theorem filters_failure_returns_false :
    rspamd_task_process sampleConsts failingFilters 8 127
        { newTask with processed_stages := 3 }
      = some ⟨false, ⟨3, 0, none, 0, ()⟩, [(.rspamd_process_filters, ⟨3, 1, none, 0, ()⟩)]⟩ := by
  rfl

/-! ## `rspamd_task_fin` (C15) -/

/-- C15. `rspamd_task_fin` sends exactly one reply, the `fin_callback` if it
is set and the protocol reply otherwise, and returns TRUE when the task is
already processed on entry, when `rspamd_task_process` on the mask of all
stages returns FALSE, and when the task is processed after that call. In the
remaining case, the call returning TRUE with the task not processed, it sends
no reply and returns FALSE. -/
theorem task_fin_replies {ρ : Type} (c : TaskConsts) (H : Handlers ρ)
    (fin_callback : ρ → Bool) (all n : Nat) (task : Task ρ) :
    (RSPAMD_TASK_IS_PROCESSED c task = true →
      rspamd_task_fin c H fin_callback all n task
        = some ⟨true, task, [rspamd_task_reply fin_callback task]⟩) ∧
    (∀ o, RSPAMD_TASK_IS_PROCESSED c task = false →
      rspamd_task_process c H n all task = some o →
      (o.ret = false →
        rspamd_task_fin c H fin_callback all n task
          = some ⟨true, o.task, [rspamd_task_reply fin_callback o.task]⟩) ∧
      (o.ret = true → RSPAMD_TASK_IS_PROCESSED c o.task = true →
        rspamd_task_fin c H fin_callback all n task
          = some ⟨true, o.task, [rspamd_task_reply fin_callback o.task]⟩) ∧
      (o.ret = true → RSPAMD_TASK_IS_PROCESSED c o.task = false →
        rspamd_task_fin c H fin_callback all n task = some ⟨false, o.task, []⟩)) ∧
    (∀ t : Task ρ, rspamd_task_reply fin_callback t
      = if fin_callback t.rest then Reply.fin_callback
        else Reply.rspamd_protocol_write_reply) := by
  refine ⟨fun h => ?_, fun o h hp => ⟨fun hr => ?_, fun hr hd => ?_, fun hr hd => ?_⟩,
    fun t => rfl⟩
  · simp [rspamd_task_fin, h]
  · simp [rspamd_task_fin, h, hp, hr]
  · simp [rspamd_task_fin, h, hp, hr, hd]
  · simp [rspamd_task_fin, h, hp, hr, hd]

/-- Witness of C15. A failing parser: the call of `rspamd_task_process`
returns FALSE and the protocol reply is sent. A new task with a pending event:
the call returns TRUE with the task not processed, no reply is sent and
`rspamd_task_fin` returns FALSE. -/
theorem task_fin_replies_witness :
    rspamd_task_fin sampleConsts failingParse (fun _ => false) 127 8 newTask
      = some ⟨true, ⟨0, 0, none, 0, ()⟩, [Reply.rspamd_protocol_write_reply]⟩ ∧
    rspamd_task_fin sampleConsts idleHandlers (fun _ => true) 127 8 pendingTask
      = some ⟨false, ⟨0, 0, none, 1, ()⟩, []⟩ :=
  ⟨((task_fin_replies sampleConsts failingParse (fun _ => false) 127 8 newTask).2.1
      ⟨false, ⟨0, 0, none, 0, ()⟩, [(.rspamd_message_parse, ⟨0, 1, none, 0, ()⟩)]⟩
      (by decide) (by decide)).1 rfl,
    ((task_fin_replies sampleConsts idleHandlers (fun _ => true) 127 8 pendingTask).2.1
      ⟨true, ⟨0, 0, none, 1, ()⟩, [(.rspamd_message_parse, ⟨0, 1, none, 1, ()⟩)]⟩
      (by decide) (by decide)).2.2 rfl (by decide)⟩

/-! ## The checkpoint (C11) -/

/-- Selecting again on the `processed_stages` that a selection returned gives
the same stage and changes nothing. -/
theorem selectStage_idem (c : TaskConsts) (stages : Nat) :
    ∀ (n p st q : Nat), selectStage c stages n p = some (st, q) →
      ∀ m, selectStage c stages (m + 1) q = some (st, q) := by
  intro n
  induction n with
  | zero => intro p st q h; simp [selectStage] at h
  | succ n ih =>
    intro p st q h m
    rw [selectStage_succ] at h
    split_ifs at h with h1 h2 h3
    · simp only [Option.some.injEq, Prod.mk.injEq] at h
      obtain ⟨e1, e2⟩ := h
      subst e2
      rw [selectStage_succ, if_neg h1, if_pos h2, e1]
    · exact ih _ st q h m
    · simp only [Option.some.injEq, Prod.mk.injEq] at h
      obtain ⟨e1, e2⟩ := h
      subst e2
      rw [selectStage_succ, if_neg h1, if_neg h2, if_neg h3, e1]

theorem select_again {ρ : Type} (c : TaskConsts) (task : Task ρ) (stages st : Nat)
    (t1 : Task ρ) (h : rspamd_task_select_processing_stage c task stages = some (st, t1))
    (t : Task ρ) (ht : t.processed_stages = t1.processed_stages) :
    rspamd_task_select_processing_stage c t stages = some (st, t) := by
  obtain ⟨q, hq, ht1⟩ := select_frame c task stages st t1 h
  have hq' : t1.processed_stages = q := by rw [ht1]
  unfold rspamd_task_select_processing_stage
  rw [ht, hq', selectStage_idem c stages 32 _ st q hq 31]
  show some (st, { t with processed_stages := q }) = some (st, t)
  rw [← hq', ← ht]

theorem afterSwitch_done_stage {ρ : Type} (c : TaskConsts) (H : Handlers ρ)
    (hD0 : c.RSPAMD_TASK_STAGE_DONE ≠ 0) (hDn : handlerOf c c.RSPAMD_TASK_STAGE_DONE = none)
    (t1 : Task ρ) :
    RSPAMD_TASK_IS_PROCESSED c (afterSwitch c H c.RSPAMD_TASK_STAGE_DONE t1) = true := by
  unfold afterSwitch
  rw [isProcessed_clearProcessing, dispatch_none c H _ t1 hDn, if_pos rfl]
  show RSPAMD_TASK_IS_PROCESSED c (markSkipped c _) = true
  unfold markSkipped
  split_ifs
  · exact isProcessed_or_done c _ hD0
  · exact isProcessed_or_done c t1 hD0

theorem and_two_pow_of_testBit (x k : Nat) (h : x.testBit k = true) :
    x &&& 2 ^ k = 2 ^ k := by
  rw [Nat.and_two_pow, h]
  simp

theorem handlerOf_pos (c : TaskConsts) (r p f k m o d : Nat)
    (hC : c.StagesAt r p f k m o d) (j : Nat) (h : StageHandler)
    (hh : handlerOf c (2 ^ j) = some h) : j = stagePos r p f k m o h := by
  obtain ⟨c1, c2, c3, c4, c5, c6, _, _⟩ := hC
  simp only [handlerOf, c1, c2, c3, c4, c5, c6, two_pow_eq_iff] at hh
  split_ifs at hh with e1 e2 e3 e4 e5 e6 <;>
    (injection hh with hh; subst hh; simp only [stagePos]; assumption)

theorem handlerOf_done (c : TaskConsts) (r p f k m o d : Nat)
    (hC : c.StagesAt r p f k m o d) : handlerOf c c.RSPAMD_TASK_STAGE_DONE = none := by
  obtain ⟨c1, c2, c3, c4, c5, c6, hD, o1, o2, o3, o4, o5, o6, _⟩ := hC
  simp (disch := omega) only [handlerOf, c1, c2, c3, c4, c5, c6, hD, two_pow_eq_iff, if_neg]

theorem stageIndex_gt_of_testBit (p b : Nat) (h : p.testBit b = true) : b < stageIndex p := by
  by_contra hle
  rw [testBit_false_of_lt (lt_two_pow_stageIndex p) (Nat.le_of_not_lt hle)] at h
  exact absurd h (by decide)

theorem stageIndex_mono (p q : Nat) (h : p ≤ q) : stageIndex p ≤ stageIndex q :=
  stageIndex_le_of_lt p _ (Nat.lt_of_le_of_lt h (lt_two_pow_stageIndex q))

theorem selectStage_index_le (c : TaskConsts) (stages n p st q : Nat)
    (h : selectStage c stages n p = some (st, q)) : stageIndex p ≤ stageIndex q :=
  stageIndex_mono p q (Nat.le_of_testBit (selectStage_keeps_bits c stages n p st q h))

/-- Every bit from the starting position of the selection up to the position
where it stops is not requested, lies below `DONE` and is set on return. -/
theorem selectStage_passed (c : TaskConsts) (stages : Nat) :
    ∀ (n p st q : Nat), selectStage c stages n p = some (st, q) →
      ∀ b, stageIndex p ≤ b → b < stageIndex q →
        stages.testBit b = false ∧ q.testBit b = true ∧ 2 ^ b < c.RSPAMD_TASK_STAGE_DONE := by
  intro n
  induction n with
  | zero => intro p st q h; simp [selectStage] at h
  | succ n ih =>
    intro p st q h b hb1 hb2
    rw [selectStage_succ] at h
    split_ifs at h with h1 h2 h3
    · simp only [Option.some.injEq, Prod.mk.injEq] at h
      rw [← h.2] at hb2; omega
    · by_cases hb : b = stageIndex p
      · subst hb
        refine ⟨?_, ?_, h3⟩
        · cases hs : stages.testBit (stageIndex p) with
          | false => rfl
          | true => exact absurd ((and_two_pow_ne_zero stages _).2 hs) h2
        · apply selectStage_keeps_bits c stages n _ st q h
          rw [Nat.testBit_or, Nat.testBit_two_pow_self, Bool.or_true]
      · exact ih _ st q h b (by rw [stageIndex_or_next]; omega) hb2
    · simp only [Option.some.injEq, Prod.mk.injEq] at h
      rw [← h.2] at hb2; omega

/-- The handlers in the trace of a call have stage positions at or above the
starting position of the first selection, and strictly increasing. -/
theorem trace_sorted {ρ : Type} (c : TaskConsts) (H : Handlers ρ) (r p f k m o d : Nat)
    (hC : c.StagesAt r p f k m o d) (stages : Nat) :
    ∀ (n : Nat) (task : Task ρ) (out : Outcome ρ),
      rspamd_task_process c H n stages task = some out →
      (∀ e ∈ out.trace, stageIndex task.processed_stages ≤ stagePos r p f k m o e.1) ∧
      out.trace.Pairwise
        (fun a b => stagePos r p f k m o a.1 < stagePos r p f k m o b.1) := by
  have hDn := handlerOf_done c r p f k m o d hC
  have hD0 : c.RSPAMD_TASK_STAGE_DONE ≠ 0 := by
    rw [hC.2.2.2.2.2.2.1]; exact Nat.pos_iff_ne_zero.1 (Nat.two_pow_pos d)
  -- the entries of one `switch`
  have hone : ∀ (task : Task ρ) (st : Nat) (t1 : Task ρ),
      rspamd_task_select_processing_stage c
        { task with flags := task.flags ||| c.RSPAMD_TASK_FLAG_PROCESSING } stages
          = some (st, t1) →
      ∀ e ∈ (dispatch c H st t1).2.2,
        st = 2 ^ stageIndex t1.processed_stages ∧
        stagePos r p f k m o e.1 = stageIndex t1.processed_stages ∧
        stageIndex task.processed_stages ≤ stageIndex t1.processed_stages := by
    intro task st t1 hs e he
    obtain ⟨q, hq, ht1⟩ := select_frame c _ stages st t1 hs
    have t1q : t1.processed_stages = q := by rw [ht1]
    rcases dispatch_task c H st t1 with ⟨h, hh, hd⟩ | ⟨_, _, htr, _⟩
    · rw [hd] at he
      simp only [List.mem_singleton] at he
      have hst : st = 2 ^ stageIndex q := by
        rcases selectStage_shape c stages 32 _ st q hq with h' | h'
        · exact h'
        · rw [h', hDn] at hh; exact absurd hh (by simp)
      rw [hst] at hh
      rw [he, t1q]
      exact ⟨hst, (handlerOf_pos c r p f k m o d hC _ h hh).symm,
        selectStage_index_le c stages 32 _ st q hq⟩
    · rw [htr] at he
      exact absurd he (List.not_mem_nil e)
  intro n
  induction n with
  | zero =>
    intro task out h
    rcases process_cases c H 0 stages task out h with ⟨ho, _⟩ |
      ⟨_, _, st, t1, hs, ⟨ho, _⟩ | ⟨_, _, _, m', o', hm, _, _⟩⟩
    · rw [ho]; exact ⟨fun e he => absurd he (List.not_mem_nil e), List.Pairwise.nil⟩
    · rw [ho]
      refine ⟨fun e he => ?_, ?_⟩
      · obtain ⟨_, e2, e3⟩ := hone task st t1 hs e he
        omega
      · rcases dispatch_task c H st t1 with ⟨h', _, hd⟩ | ⟨_, _, htr, _⟩
        · rw [hd]; exact List.pairwise_singleton _ _
        · rw [htr]; exact List.Pairwise.nil
    · exact absurd hm (by omega)
  | succ n ih =>
    intro task out h
    rcases process_cases c H (n + 1) stages task out h with ⟨ho, _⟩ |
      ⟨_, _, st, t1, hs, ⟨ho, _⟩ | ⟨_, hnp, _, m', o', hm, hrec, ho⟩⟩
    · rw [ho]; exact ⟨fun e he => absurd he (List.not_mem_nil e), List.Pairwise.nil⟩
    · rw [ho]
      refine ⟨fun e he => ?_, ?_⟩
      · obtain ⟨_, e2, e3⟩ := hone task st t1 hs e he
        omega
      · rcases dispatch_task c H st t1 with ⟨h', _, hd⟩ | ⟨_, _, htr, _⟩
        · rw [hd]; exact List.pairwise_singleton _ _
        · rw [htr]; exact List.Pairwise.nil
    · have hm' : m' = n := by omega
      subst hm'
      obtain ⟨ih1, ih2⟩ := ih (nextTask c H st t1) o' hrec
      obtain ⟨q, hq, ht1⟩ := select_frame c _ stages st t1 hs
      have t1q : t1.processed_stages = q := by rw [ht1]
      -- the stage marked is the bit above the processed ones
      have hst : st = 2 ^ stageIndex q := by
        rcases selectStage_shape c stages 32 _ st q hq with h' | h'
        · exact h'
        · rw [h', afterSwitch_done_stage c H hD0 hDn t1] at hnp
          exact absurd hnp (by decide)
      have hnext : stageIndex q < stageIndex (nextTask c H st t1).processed_stages := by
        apply stageIndex_gt_of_testBit
        show ((afterSwitch c H st t1).processed_stages ||| st).testBit _ = true
        rw [hst, Nat.testBit_or, Nat.testBit_two_pow_self, Bool.or_true]
      have hle : stageIndex task.processed_stages ≤ stageIndex q :=
        selectStage_index_le c stages 32 _ st q hq
      rw [ho]
      refine ⟨fun e he => ?_, ?_⟩
      · simp only [List.mem_append] at he
        rcases he with he | he
        · obtain ⟨_, e2, e3⟩ := hone task st t1 hs e he
          omega
        · have := ih1 e he
          omega
      · show List.Pairwise _ ((dispatch c H st t1).2.2 ++ o'.trace)
        rw [List.pairwise_append]
        refine ⟨?_, ih2, fun a ha b hb => ?_⟩
        · rcases dispatch_task c H st t1 with ⟨h', _, hd⟩ | ⟨_, _, htr, _⟩
          · rw [hd]; exact List.pairwise_singleton _ _
          · rw [htr]; exact List.Pairwise.nil
        · obtain ⟨_, e2, _⟩ := hone task st t1 hs a ha
          have := ih1 b hb
          rw [t1q] at e2
          omega

theorem dispatch_entry_pos {ρ : Type} (c : TaskConsts) (H : Handlers ρ)
    (r p f k m o d : Nat) (hC : c.StagesAt r p f k m o d) (stages : Nat)
    (task : Task ρ) (st : Nat) (t1 : Task ρ)
    (hs : rspamd_task_select_processing_stage c task stages = some (st, t1))
    (e : Call ρ) (he : e ∈ (dispatch c H st t1).2.2) :
    stagePos r p f k m o e.1 = stageIndex t1.processed_stages := by
  have hDn := handlerOf_done c r p f k m o d hC
  obtain ⟨q, hq, ht1⟩ := select_frame c _ stages st t1 hs
  have t1q : t1.processed_stages = q := by rw [ht1]
  rcases dispatch_task c H st t1 with ⟨h, hh, hd⟩ | ⟨_, _, htr, _⟩
  · rw [hd] at he
    simp only [List.mem_singleton] at he
    have hst : st = 2 ^ stageIndex q := by
      rcases selectStage_shape c stages 32 _ st q hq with h' | h'
      · exact h'
      · rw [h', hDn] at hh; exact absurd hh (by simp)
    rw [hst] at hh
    rw [he, t1q]
    exact (handlerOf_pos c r p f k m o d hC _ h hh).symm
  · rw [htr] at he
    exact absurd he (List.not_mem_nil e)

theorem nextTask_index_gt {ρ : Type} (c : TaskConsts) (H : Handlers ρ)
    (r p f k m o d : Nat) (hC : c.StagesAt r p f k m o d) (stages : Nat)
    (task : Task ρ) (st : Nat) (t1 : Task ρ)
    (hs : rspamd_task_select_processing_stage c task stages = some (st, t1))
    (hnp : RSPAMD_TASK_IS_PROCESSED c (afterSwitch c H st t1) = false) :
    stageIndex t1.processed_stages < stageIndex (nextTask c H st t1).processed_stages := by
  have hDn := handlerOf_done c r p f k m o d hC
  have hD0 : c.RSPAMD_TASK_STAGE_DONE ≠ 0 := by
    rw [hC.2.2.2.2.2.2.1]; exact Nat.pos_iff_ne_zero.1 (Nat.two_pow_pos d)
  obtain ⟨q, hq, ht1⟩ := select_frame c _ stages st t1 hs
  have t1q : t1.processed_stages = q := by rw [ht1]
  have hst : st = 2 ^ stageIndex q := by
    rcases selectStage_shape c stages 32 _ st q hq with h' | h'
    · exact h'
    · rw [h', afterSwitch_done_stage c H hD0 hDn t1] at hnp
      exact absurd hnp (by decide)
  rw [t1q]
  apply stageIndex_gt_of_testBit
  show ((afterSwitch c H st t1).processed_stages ||| st).testBit _ = true
  rw [hst, Nat.testBit_or, Nat.testBit_two_pow_self, Bool.or_true]

/-- The handlers that a call dispatches have stage positions at or above the
position at which its selection stopped. -/
theorem trace_after_selection {ρ : Type} (c : TaskConsts) (H : Handlers ρ)
    (r p f k m o d : Nat) (hC : c.StagesAt r p f k m o d) (stages n : Nat)
    (task : Task ρ) (out : Outcome ρ) (st : Nat) (t1 : Task ρ)
    (hs : rspamd_task_select_processing_stage c
      { task with flags := task.flags ||| c.RSPAMD_TASK_FLAG_PROCESSING } stages
        = some (st, t1))
    (h : rspamd_task_process c H n stages task = some out) :
    ∀ e ∈ out.trace, stageIndex t1.processed_stages ≤ stagePos r p f k m o e.1 := by
  intro e he
  rcases process_cases c H n stages task out h with ⟨ho, _⟩ |
    ⟨_, _, st', t1', hs', ⟨ho, _⟩ | ⟨_, hnp, _, m', o', _, hrec, ho⟩⟩
  · rw [ho] at he; exact absurd he (List.not_mem_nil e)
  · rw [hs] at hs'
    simp only [Option.some.injEq, Prod.mk.injEq] at hs'
    obtain ⟨e1, e2⟩ := hs'
    subst e1; subst e2
    rw [ho] at he
    rw [dispatch_entry_pos c H r p f k m o d hC stages _ st t1 hs e he]
  · rw [hs] at hs'
    simp only [Option.some.injEq, Prod.mk.injEq] at hs'
    obtain ⟨e1, e2⟩ := hs'
    subst e1; subst e2
    rw [ho] at he
    simp only [List.mem_append] at he
    rcases he with he | he
    · rw [dispatch_entry_pos c H r p f k m o d hC stages _ st t1 hs e he]
    · have h1 := (trace_sorted c H r p f k m o d hC stages m' _ o' hrec).1 e he
      have h2 := nextTask_index_gt c H r p f k m o d hC stages _ st t1 hs hnp
      omega

theorem selectStage_stop (c : TaskConsts) (stages : Nat) :
    ∀ (n p st q : Nat), selectStage c stages n p = some (st, q) →
      st = 2 ^ stageIndex q ∨
      (st = c.RSPAMD_TASK_STAGE_DONE ∧ ¬ 2 ^ stageIndex q < c.RSPAMD_TASK_STAGE_DONE) := by
  intro n
  induction n with
  | zero => intro p st q h; simp [selectStage] at h
  | succ n ih =>
    intro p st q h
    rw [selectStage_succ] at h
    split_ifs at h with h1 h2 h3
    · simp only [Option.some.injEq, Prod.mk.injEq] at h
      left; rw [← h.1, ← h.2]
    · exact ih _ st q h
    · simp only [Option.some.injEq, Prod.mk.injEq] at h
      right; rw [← h.1, ← h.2]; exact ⟨rfl, h3⟩

/-- C19, as the code has it. Let the stage selection of a call return the
stage `st` and the task `t1`. Every stage position `b` before the position at
which the selection stopped is set in `processed_stages` of `t1`, provided
that it was set already or lies at or above the starting position of the
selection, the bit above the highest processed one (in a task whose processed
stages form a run of low bits that is every position). The positions that the
selection passed over are not requested and lie below `DONE`. No handler of a
stage before the stopping position is dispatched by the call; and no call, for
whatever mask, dispatches the handler of a stage whose bit is set in
`processed_stages` when the call starts. -/
theorem select_marks_passed_stages {ρ : Type} (c : TaskConsts) (H : Handlers ρ)
    (r p f k m o d : Nat) (hC : c.StagesAt r p f k m o d) (stages : Nat)
    (task : Task ρ) (st : Nat) (t1 : Task ρ)
    (hs : rspamd_task_select_processing_stage c
      { task with flags := task.flags ||| c.RSPAMD_TASK_FLAG_PROCESSING } stages
        = some (st, t1)) :
    (∀ b, b < stageIndex t1.processed_stages →
      (stageIndex task.processed_stages ≤ b ∨ task.processed_stages.testBit b = true) →
      t1.processed_stages.testBit b = true) ∧
    (∀ b, stageIndex task.processed_stages ≤ b → b < stageIndex t1.processed_stages →
      stages.testBit b = false ∧ 2 ^ b < c.RSPAMD_TASK_STAGE_DONE) ∧
    (task.processed_stages < 2 ^ d → st = 2 ^ stageIndex t1.processed_stages) ∧
    (∀ n out, rspamd_task_process c H n stages task = some out →
      ∀ b, b < stageIndex t1.processed_stages →
      ∀ h, handlerOf c (2 ^ b) = some h → ∀ e ∈ out.trace, e.1 ≠ h) ∧
    (∀ b (task' : Task ρ), task'.processed_stages.testBit b = true →
      ∀ stages' n out, rspamd_task_process c H n stages' task' = some out →
      ∀ h, handlerOf c (2 ^ b) = some h → ∀ e ∈ out.trace, e.1 ≠ h) := by
  obtain ⟨q, hq, ht1⟩ := select_frame c _ stages st t1 hs
  have t1q : t1.processed_stages = q := by rw [ht1]
  have hq' : selectStage c stages 32 task.processed_stages = some (st, q) := hq
  refine ⟨fun b hb hor => ?_, fun b hb1 hb2 => ?_, fun hlt => ?_,
    fun n out hout b hb h hh e he => ?_, fun b task' hb stages' n out hout h hh e he => ?_⟩
  · rw [t1q] at hb ⊢
    rcases hor with hge | hset
    · exact (selectStage_passed c stages 32 _ st q hq' b hge hb).2.1
    · exact selectStage_keeps_bits c stages 32 _ st q hq' b hset
  · rw [t1q] at hb2
    have := selectStage_passed c stages 32 _ st q hq' b hb1 hb2
    exact ⟨this.1, this.2.2⟩
  · rw [t1q]
    rcases selectStage_stop c stages 32 _ st q hq' with h | ⟨h, hge⟩
    · exact h
    · have hD := hC.2.2.2.2.2.2.1
      have hle := (selectStage_index c d hD stages 32 _ st q hq'
        (stageIndex_le_of_lt _ _ hlt)).2
      rw [hD] at hge
      have : ¬ stageIndex q < d := fun hl => hge (Nat.pow_lt_pow_right (by decide) hl)
      have hqd : stageIndex q = d := by omega
      rw [h, hD, hqd]
  · have hpos := trace_after_selection c H r p f k m o d hC stages n task out st t1 hs hout e he
    have hb' := handlerOf_pos c r p f k m o d hC b h hh
    intro heq
    rw [heq] at hpos
    omega
  · have hpos := (trace_sorted c H r p f k m o d hC stages' n task' out hout).1 e he
    have hgt := stageIndex_gt_of_testBit _ _ hb
    have hb' := handlerOf_pos c r p f k m o d hC b h hh
    intro heq
    rw [heq] at hpos
    omega

/-- Witness of C19 as amended: parse done, pre-filters and filters not
requested (mask 121): the selection returns the classifiers stage (8) and has
set the bits of pre-filters and filters. -/
theorem select_marks_passed_stages_witness :
    rspamd_task_select_processing_stage sampleConsts (⟨1, 1, none, 0, ()⟩ : Task Unit) 121
      = some (8, ⟨7, 1, none, 0, ()⟩) ∧
    (7 : Nat).testBit 1 = true ∧ (7 : Nat).testBit 2 = true :=
  ⟨by decide,
    (select_marks_passed_stages sampleConsts idleHandlers 0 1 2 3 4 5 6 sampleConsts_stagesAt
      121 ⟨1, 0, none, 0, ()⟩ 8 ⟨7, 1, none, 0, ()⟩ (by decide)).1 1 (by decide)
      (Or.inl (by decide)),
    (select_marks_passed_stages sampleConsts idleHandlers 0 1 2 3 4 5 6 sampleConsts_stagesAt
      121 ⟨1, 0, none, 0, ()⟩ 8 ⟨7, 1, none, 0, ()⟩ (by decide)).1 2 (by decide)
      (Or.inl (by decide))⟩

/-- C19 as stated fails. A task with bit 2 alone in `processed_stages` and the
mask 120, which does not contain the first three stages: the selection
returns stage 8 and leaves `processed_stages` at 4. The stage 1 is below
`DONE` (64), absent from the mask and lies before the returned stage 8, and it
is not recorded as processed. -/
theorem select_leaves_lower_stage_unmarked :
    rspamd_task_select_processing_stage sampleConsts (⟨4, 1, none, 0, ()⟩ : Task Unit) 120
      = some (8, ⟨4, 1, none, 0, ()⟩) ∧
    (1 : Nat) < 64 ∧ (120 : Nat) &&& 1 = 0 ∧ (1 : Nat) < 8 ∧ (4 : Nat) &&& 1 = 0 := by
  decide

/-! ## Termination of the two recursions (C20) -/

theorem lt_done_of_not_processed {ρ : Type} (c : TaskConsts) (d : Nat)
    (hD : c.RSPAMD_TASK_STAGE_DONE = 2 ^ d) (t : Task ρ)
    (hp : t.processed_stages < 2 ^ (d + 1))
    (h2 : RSPAMD_TASK_IS_PROCESSED c t = false) : t.processed_stages < 2 ^ d := by
  have hbit : t.processed_stages.testBit d = false := by
    cases hb : t.processed_stages.testBit d with
    | false => rfl
    | true =>
      exfalso
      have h3 : RSPAMD_TASK_IS_PROCESSED c t = true := by
        unfold RSPAMD_TASK_IS_PROCESSED
        rw [hD]
        simpa using (and_two_pow_ne_zero _ d).2 hb
      rw [h2] at h3
      exact absurd h3 (by decide)
  apply Nat.lt_pow_two_of_testBit
  intro i hi
  by_cases hid : i = d
  · rw [hid]; exact hbit
  · exact testBit_false_of_lt hp (by omega)

theorem afterSwitch_within {ρ : Type} (c : TaskConsts) (H : Handlers ρ) (d : Nat)
    (hD : c.RSPAMD_TASK_STAGE_DONE = 2 ^ d) (hW : H.StagesWithin d)
    (st : Nat) (t1 : Task ρ) (ht : t1.processed_stages < 2 ^ (d + 1)) :
    (afterSwitch c H st t1).processed_stages < 2 ^ (d + 1) := by
  have hdone : (2 : Nat) ^ d < 2 ^ (d + 1) := Nat.pow_lt_pow_right (by decide) (by omega)
  have hdisp : (dispatch c H st t1).2.1.processed_stages < 2 ^ (d + 1) := by
    rcases dispatch_task c H st t1 with ⟨h, _, hd⟩ | ⟨_, _, _, hd | ⟨_, hd⟩⟩
    · rw [hd]; exact hW h t1 ht
    · rw [hd]; exact ht
    · rw [hd]
      show t1.processed_stages ||| c.RSPAMD_TASK_STAGE_DONE < _
      rw [hD]
      exact Nat.or_lt_two_pow ht hdone
  unfold afterSwitch
  rw [(clearProcessing_stages c _).1]
  unfold markSkipped
  split_ifs
  · show (dispatch c H st t1).2.1.processed_stages ||| c.RSPAMD_TASK_STAGE_DONE < _
    rw [hD]
    exact Nat.or_lt_two_pow hdisp hdone
  · exact hdisp

/-- With handlers that return and leave `processed_stages` within the bits up
to `DONE = 2 ^ d`, a call on a task whose `processed_stages` lies within them
returns: every tail call is made after setting the bit of the stage selected,
which lies above the highest bit the task had when the call started, so
`d - stageIndex processed_stages` tail calls are not exceeded. The handlers
may clear bits of `processed_stages`. -/
theorem process_returns_within {ρ : Type} (c : TaskConsts) (H : Handlers ρ) (d : Nat)
    (hD : c.RSPAMD_TASK_STAGE_DONE = 2 ^ d) (hd : d ≤ 30) (hW : H.StagesWithin d)
    (stages : Nat) :
    ∀ (g n : Nat) (task : Task ρ), task.processed_stages < 2 ^ (d + 1) →
      d - stageIndex task.processed_stages ≤ g → g < n →
      ∃ out, rspamd_task_process c H n stages task = some out := by
  have hD0 : c.RSPAMD_TASK_STAGE_DONE ≠ 0 := by
    rw [hD]; exact Nat.pos_iff_ne_zero.1 (Nat.two_pow_pos d)
  have hD30 : c.RSPAMD_TASK_STAGE_DONE ≤ 2 ^ 30 := by
    rw [hD]; exact Nat.pow_le_pow_right (by decide) hd
  intro g
  induction g using Nat.strong_induction_on with
  | _ g ih =>
    intro n task hp1 hg hn
    by_cases h1 : inProcessing c task = true
    · exact ⟨_, by rw [process_unfold]; exact processBody_guard c H _ stages task (Or.inl h1)⟩
    by_cases h2 : RSPAMD_TASK_IS_PROCESSED c task = true
    · exact ⟨_, by rw [process_unfold]; exact processBody_guard c H _ stages task (Or.inr h2)⟩
    simp only [Bool.not_eq_true] at h1 h2
    have hp : task.processed_stages < 2 ^ d := lt_done_of_not_processed c d hD task hp1 h2
    have hp30 : task.processed_stages < 2 ^ 30 :=
      Nat.lt_of_lt_of_le hp (Nat.pow_le_pow_right (by decide) hd)
    obtain ⟨st, t1, hs⟩ := select_total c hD30 stages
      { task with flags := task.flags ||| c.RSPAMD_TASK_FLAG_PROCESSING } hp30
    obtain ⟨q, hq, ht1⟩ := select_frame c _ stages st t1 hs
    have hpd : stageIndex task.processed_stages ≤ d := stageIndex_le_of_lt _ _ hp
    obtain ⟨i1, i2⟩ : stageIndex task.processed_stages ≤ stageIndex q ∧ stageIndex q ≤ d :=
      selectStage_index c d hD stages 32 _ st q hq hpd
    have t1q : t1.processed_stages = q := by rw [ht1]
    have hq2 : t1.processed_stages < 2 ^ (d + 1) := by
      rw [t1q]
      exact Nat.lt_of_lt_of_le (lt_two_pow_stageIndex q)
        (Nat.pow_le_pow_right (by decide) (by omega))
    rw [process_unfold, processBody_selected c H _ stages task st t1 h1 h2 hs]
    split_ifs with h3 h4
    · exact ⟨_, rfl⟩
    · exact ⟨_, rfl⟩
    · -- the tail call
      obtain ⟨n, rfl⟩ : ∃ m, n = m + 1 := ⟨n - 1, by omega⟩
      have ha := afterSwitch_within c H d hD hW st t1 hq2
      have hnp : (nextTask c H st t1).processed_stages
          = (afterSwitch c H st t1).processed_stages ||| st := rfl
      have hrec : ∃ out, rspamd_task_process c H n stages (nextTask c H st t1) = some out := by
        by_cases h6 : RSPAMD_TASK_IS_PROCESSED c (nextTask c H st t1) = true
        · exact ⟨_, by rw [process_unfold]; exact processBody_guard c H _ stages _ (Or.inr h6)⟩
        · have hst : st = 2 ^ stageIndex q ∧ stageIndex q < d := by
            rcases selectStage_shape c stages 32 _ st q hq with h | h
            · refine ⟨h, ?_⟩
              by_contra hge
              have hqd : stageIndex q = d := by omega
              apply h6
              unfold RSPAMD_TASK_IS_PROCESSED
              rw [hnp, h, hqd, hD, or_and_self_right]
              simp
            · exfalso
              apply h6
              unfold RSPAMD_TASK_IS_PROCESSED
              rw [hnp, h, or_and_self_right]
              simpa using hD0
          have hidx : stageIndex q < stageIndex (nextTask c H st t1).processed_stages := by
            apply stageIndex_gt_of_testBit
            rw [hnp, hst.1, Nat.testBit_or, Nat.testBit_two_pow_self, Bool.or_true]
          have hnlt : (nextTask c H st t1).processed_stages < 2 ^ (d + 1) := by
            rw [hnp]
            refine Nat.or_lt_two_pow ha ?_
            rw [hst.1]
            exact Nat.pow_lt_pow_right (by decide) (by omega)
          exact ih (g - 1) (by omega) n (nextTask c H st t1) hnlt (by omega) (by omega)
      obtain ⟨out, hout⟩ := hrec
      refine ⟨{ out with trace := (dispatch c H st t1).2.2 ++ out.trace }, ?_⟩
      show Option.map _ (rspamd_task_process c H n stages (nextTask c H st t1)) = _
      rw [hout]
      rfl

theorem selectStage_depth_aux (c : TaskConsts) (d : Nat)
    (hD : c.RSPAMD_TASK_STAGE_DONE = 2 ^ d) (stages : Nat) :
    ∀ (g n p : Nat), d - stageIndex p = g → g < n →
      selectStage c stages n p = selectStage c stages (g + 1) p := by
  intro g
  induction g with
  | zero =>
    intro n p hg hn
    obtain ⟨n, rfl⟩ : ∃ m, n = m + 1 := ⟨n - 1, by omega⟩
    have hge : ¬ 2 ^ stageIndex p < c.RSPAMD_TASK_STAGE_DONE := by
      rw [hD]
      intro hlt
      have := (Nat.pow_lt_pow_iff_right (by decide : 1 < 2)).1 hlt
      omega
    rw [selectStage_succ, selectStage_succ, if_neg hge, if_neg hge]
  | succ g ih =>
    intro n p hg hn
    obtain ⟨n, rfl⟩ : ∃ m, n = m + 1 := ⟨n - 1, by omega⟩
    rw [selectStage_succ, selectStage_succ c stages (g + 1) p]
    split_ifs
    · rfl
    · rfl
    · exact ih n _ (by rw [stageIndex_or_next]; omega) (by omega)
    · rfl

/-- C20. Take a task whose `processed_stages` holds only bits up to
`DONE = 2 ^ d`, any mask, and stage handlers that return and leave
`processed_stages` within those bits (they may set and clear bits there). The
stage selection returns, and a recursion depth of
`d - stageIndex processed_stages + 1`, one call for each stage position not
yet passed below `DONE` and one more, is enough for it. A call of
`rspamd_task_process` returns when `d + 1` tail calls are allowed; and in
every outcome each stage handler occurs at most once in the trace. -/
theorem both_recursions_terminate {ρ : Type} (c : TaskConsts) (H : Handlers ρ)
    (r p f k m o d : Nat) (hC : c.StagesAt r p f k m o d) (hd : d < 30)
    (hW : H.StagesWithin d) (stages : Nat) (task : Task ρ)
    (hp : task.processed_stages < 2 ^ (d + 1)) :
    (∀ n, d - stageIndex task.processed_stages < n →
      ∃ st q, selectStage c stages n task.processed_stages = some (st, q) ∧
        rspamd_task_select_processing_stage c task stages
          = some (st, { task with processed_stages := q })) ∧
    (∀ n, d < n → ∃ out, rspamd_task_process c H n stages task = some out) ∧
    (∀ n out, rspamd_task_process c H n stages task = some out →
      (out.trace.map Prod.fst).Nodup) := by
  have hD := hC.2.2.2.2.2.2.1
  have hD30 : c.RSPAMD_TASK_STAGE_DONE ≤ 2 ^ 30 := by
    rw [hD]; exact Nat.pow_le_pow_right (by decide) (by omega)
  have hp30 : task.processed_stages < 2 ^ 30 :=
    Nat.lt_of_lt_of_le hp (Nat.pow_le_pow_right (by decide) (by omega))
  refine ⟨fun n hn => ?_, fun n hn => ?_, fun n out hout => ?_⟩
  · have hle := stageIndex_le_of_lt _ _ hp30
    obtain ⟨st, q, h32⟩ := selectStage_total c hD30 stages
      (30 - stageIndex task.processed_stages) 32 task.processed_stages (by omega) (by omega)
    have e1 := selectStage_depth_aux c d hD stages _ n task.processed_stages rfl hn
    have e2 := selectStage_depth_aux c d hD stages _ 32 task.processed_stages rfl (by omega)
    refine ⟨st, q, by rw [e1, ← e2, h32], ?_⟩
    unfold rspamd_task_select_processing_stage
    rw [h32]
    rfl
  · exact process_returns_within c H d hD (by omega) hW stages
      (d - stageIndex task.processed_stages) n task hp (Nat.le_refl _) (by omega)
  · have hs := (trace_sorted c H r p f k m o d hC stages n task out hout).2
    rw [List.Nodup, List.pairwise_map]
    exact hs.imp (fun {a b} hab heq => by rw [heq] at hab; exact Nat.lt_irrefl _ hab)

/-- Witness of C20: handlers that clear `processed_stages`, the new task and
the mask of all stages; the selection returns with depth 7, the call returns
with 7 tail calls allowed, and its trace has no handler twice. -/
theorem both_recursions_terminate_witness :
    (∃ st q, selectStage sampleConsts 127 7 0 = some (st, q) ∧
      rspamd_task_select_processing_stage sampleConsts newTask 127
        = some (st, { newTask with processed_stages := q })) ∧
    (∃ out, rspamd_task_process sampleConsts clearingHandlers 7 127 newTask = some out) ∧
    ∀ n out, rspamd_task_process sampleConsts clearingHandlers n 127 newTask = some out →
      (out.trace.map Prod.fst).Nodup :=
  ⟨(both_recursions_terminate sampleConsts clearingHandlers 0 1 2 3 4 5 6
      sampleConsts_stagesAt (by decide)
      (fun h t _ => by cases h <;> exact Nat.two_pow_pos 7) 127 newTask (by decide)).1 7
      (by decide),
    (both_recursions_terminate sampleConsts clearingHandlers 0 1 2 3 4 5 6
      sampleConsts_stagesAt (by decide)
      (fun h t _ => by cases h <;> exact Nat.two_pow_pos 7) 127 newTask (by decide)).2.1 7
      (by decide),
    (both_recursions_terminate sampleConsts clearingHandlers 0 1 2 3 4 5 6
      sampleConsts_stagesAt (by decide)
      (fun h t _ => by cases h <;> exact Nat.two_pow_pos 7) 127 newTask (by decide)).2.2⟩

/-! ## The regexp cache (C16) -/

theorem re_cache_mask_compl : 4294967295 ^^^ re_cache_mask = 2 ^ 31 - 1 := by
  decide

theorem re_cache_stored_ne_zero (v : Nat) : (v % 2 ^ 32) ||| re_cache_mask ≠ 0 := by
  intro h
  have hb : ((v % 2 ^ 32) ||| re_cache_mask).testBit 31 = true := by
    rw [Nat.testBit_or]
    have : re_cache_mask.testBit 31 = true := by decide
    rw [this, Bool.or_true]
  rw [h, Nat.zero_testBit] at hb
  exact absurd hb (by decide)

theorem re_cache_value_stored (v : Nat) :
    re_cache_value ((v % 2 ^ 32) ||| re_cache_mask) = v % 2 ^ 31 := by
  unfold re_cache_value
  rw [re_cache_mask_compl, Nat.and_pow_two_sub_one_eq_mod]
  apply Nat.eq_of_testBit_eq
  intro i
  simp only [Nat.testBit_mod_two_pow, Nat.testBit_or, re_cache_mask, Nat.testBit_two_pow]
  by_cases h1 : i < 31
  · have h2 : i < 32 := by omega
    have h3 : ¬ 31 = i := by omega
    simp [h1, h2, h3]
  · simp [h1]

/-- C16. For every cache, key `re` and value `v`: after
`rspamd_task_re_cache_add (task, re, v)`, the call
`rspamd_task_re_cache_check (task, re)` returns `v mod 2 ^ 31`, that is `v`
itself for `0 ≤ v < 2 ^ 31` (zero included), and this is not
`RSPAMD_TASK_CACHE_NO_VALUE` when that constant lies outside the 31-bit
values. -/
theorem re_cache_check_after_add (NO_VALUE : Nat) (re_cache : ReCache) (re : String)
    (v : Nat) :
    rspamd_task_re_cache_check NO_VALUE
        (rspamd_task_re_cache_add NO_VALUE re_cache re v).2 re = v % 2 ^ 31 ∧
    (v < 2 ^ 31 →
      rspamd_task_re_cache_check NO_VALUE
        (rspamd_task_re_cache_add NO_VALUE re_cache re v).2 re = v) ∧
    (2 ^ 31 ≤ NO_VALUE →
      rspamd_task_re_cache_check NO_VALUE
        (rspamd_task_re_cache_add NO_VALUE re_cache re v).2 re ≠ NO_VALUE) := by
  have h : rspamd_task_re_cache_check NO_VALUE
      (rspamd_task_re_cache_add NO_VALUE re_cache re v).2 re = v % 2 ^ 31 := by
    unfold rspamd_task_re_cache_check rspamd_task_re_cache_add g_hash_table_insert
    simp only [if_true]
    rw [if_pos (re_cache_stored_ne_zero v)]
    exact re_cache_value_stored v
  refine ⟨h, fun hv => ?_, fun hn => ?_⟩
  · rw [h, Nat.mod_eq_of_lt hv]
  · rw [h]
    have : v % 2 ^ 31 < 2 ^ 31 := Nat.mod_lt _ (Nat.two_pow_pos 31)
    omega

/-! ## Binding of the query arguments (C17) -/

/-- C17, the code at the documented call
`db:sql ([[ INSERT INTO x VALUES (?1, ?2); ]], 1, 'test')`. The binding starts
at stack position 2, the query itself: parameter `?1` is bound to the text of
the query and `?2` to the first argument `1`; the second argument `'test'` is
bound to number 3. The documentation has `?1 = 1` and `?2 = 'test'`. -/
theorem sql_binds_start_at_query :
    lua_sqlite3_sql_binds documentedCall
      = some [SqlBind.text 1 " INSERT INTO x VALUES (?1, ?2); ", SqlBind.int64 2 1,
          SqlBind.text 3 "test"] ∧
    boundTo [SqlBind.text 1 " INSERT INTO x VALUES (?1, ?2); ", SqlBind.int64 2 1,
        SqlBind.text 3 "test"] 1
      = some (SqlBind.text 1 " INSERT INTO x VALUES (?1, ?2); ") ∧
    boundTo [SqlBind.text 1 " INSERT INTO x VALUES (?1, ?2); ", SqlBind.int64 2 1,
        SqlBind.text 3 "test"] 2
      = some (SqlBind.int64 2 1) := by
  decide

/-- For every call with at least one argument after a query text `q`, the
first bind call is the one of the query itself, on parameter number 1. -/
theorem sql_binds_query_first (db : LuaValue) (q : String) (a : LuaValue)
    (args : List LuaValue) :
    ∃ rest, lua_sqlite3_sql_binds (db :: .string q :: a :: args)
      = some (SqlBind.text 1 q :: rest) := by
  have hlen : (db :: LuaValue.string q :: a :: args).length = args.length + 3 := rfl
  unfold lua_sqlite3_sql_binds lua_sqlite3_bind_statements
  simp only [hlen]
  rw [if_pos (by omega), if_pos (by omega)]
  have hn : args.length + 3 + 1 - 2 = (args.length + 1) + 1 := by omega
  rw [hn]
  exact ⟨_, rfl⟩

/-! ## Errors of `rspamd_task_load_message` (C18) -/

theorem g_set_error_isSome (err : Option String) (message : String) :
    (g_set_error err message).isSome = true := by
  cases err <;> rfl

/-- C18. Whenever `rspamd_task_load_message` returns FALSE, the error slot of
the task is set. For a task that is not file-backed (after the headers of the
message have been handled) it returns a result, and returns FALSE exactly when
`len = 0`, or `HAS_CONTROL` is set and `len` is smaller than
`task->message_len`. -/
theorem load_message_failure {ρ μ : Type} (k : LoadConsts) (E : LoadEnv ρ μ)
    (task : LoadTask ρ) (msg : Option μ) (start len : Nat) :
    (∀ t, rspamd_task_load_message k E task msg start len = some (false, t) →
      t.err.isSome = true) ∧
    ((afterHeaders E task msg).flags &&& k.RSPAMD_TASK_FLAG_FILE = 0 →
      ∃ b t, rspamd_task_load_message k E task msg start len = some (b, t) ∧
        (b = false ↔
          (len = 0 ∨
            ((afterHeaders E task msg).flags &&& k.RSPAMD_TASK_FLAG_HAS_CONTROL ≠ 0 ∧
              len < (afterHeaders E task msg).message_len)))) := by
  unfold rspamd_task_load_message
  generalize afterHeaders E task msg = t0
  dsimp only
  constructor
  · intro t ht
    split_ifs at ht <;>
      first
        | (simp only [Option.some.injEq, Prod.mk.injEq, true_and] at ht
           rw [← ht]; exact g_set_error_isSome _ _)
        | (split at ht <;>
            first
              | (simp only [Option.some.injEq, Prod.mk.injEq, true_and] at ht
                 rw [← ht]; exact g_set_error_isSome _ _)
              | (simp at ht))
        | (simp at ht)
  · intro hnf
    rw [if_neg (by rw [hnf]; simp)]
    split_ifs with h3 h4 h5 h6 <;> refine ⟨_, _, rfl, ?_⟩
    · simp [h3]
    · simp [h4, h5]
    all_goals
      simp only [Bool.true_eq_false, false_iff, not_or, not_and]
      first
        | exact ⟨h3, fun _ => h5⟩
        | exact ⟨h3, fun h => absurd h h4⟩

/-- Witness of C16: the value 0 added to an empty cache is found again as 0,
with `RSPAMD_TASK_CACHE_NO_VALUE` taken as `(guint)-1`. -/
theorem re_cache_check_after_add_witness :
    rspamd_task_re_cache_check 4294967295
      (rspamd_task_re_cache_add 4294967295 (fun _ => 0) "re" 0).2 "re" = 0 :=
  (re_cache_check_after_add 4294967295 (fun _ => 0) "re" 0).2.1 (by decide)

/-- Witness of C18: a task with `HAS_CONTROL` set and `message_len = 10`, given
5 bytes: the call returns FALSE and the error slot is set. -/
theorem load_message_failure_witness :
    rspamd_task_load_message sampleLoadConsts sampleLoadEnv ⟨2, 0, 0, 10, none, ()⟩ none 100 5
      = some (false, ⟨2, 100, 5, 10, some "Invalid length", ()⟩) ∧
    (⟨2, 100, 5, 10, some "Invalid length", ()⟩ : LoadTask Unit).err.isSome = true :=
  ⟨by decide,
    (load_message_failure sampleLoadConsts sampleLoadEnv ⟨2, 0, 0, 10, none, ()⟩ none 100 5).1
      ⟨2, 100, 5, 10, some "Invalid length", ()⟩ (by decide)⟩

/-! ## Dependencies in the symbols cache runtime (C14) -/

/-- As long as the control chunk is shorter than `2 ^ 32` bytes, the message
body is the last `message_len` bytes. For every task that is not file-backed
and has `HAS_CONTROL` set (after the headers of the message have been
handled), every input with `0 < len`, `message_len ≤ len < 2 ^ 64` and
`len - message_len < 2 ^ 32`, and a handler of the control object that does
not write `msg.start` and `msg.len`: the call returns TRUE with
`msg.start = start + (len - message_len)` and `msg.len = message_len`, whether
or not the control chunk parses. -/
theorem load_message_control_body {ρ μ : Type} (k : LoadConsts) (E : LoadEnv ρ μ)
    (task : LoadTask ρ) (msg : Option μ) (start len : Nat)
    (hfile : (afterHeaders E task msg).flags &&& k.RSPAMD_TASK_FLAG_FILE = 0)
    (hctl : (afterHeaders E task msg).flags &&& k.RSPAMD_TASK_FLAG_HAS_CONTROL ≠ 0)
    (hlen : 0 < len) (hle : (afterHeaders E task msg).message_len ≤ len)
    (h64 : len < 2 ^ 64)
    (h32 : len - (afterHeaders E task msg).message_len < 2 ^ 32)
    (hframe : ∀ t, (E.rspamd_protocol_handle_control t).msg_start = t.msg_start ∧
      (E.rspamd_protocol_handle_control t).msg_len = t.msg_len) :
    ∃ t, rspamd_task_load_message k E task msg start len = some (true, t) ∧
      t.msg_start = start + (len - (afterHeaders E task msg).message_len) ∧
      t.msg_len = (afterHeaders E task msg).message_len := by
  unfold rspamd_task_load_message
  generalize afterHeaders E task msg = t0 at hfile hctl hle h32
  dsimp only
  have hmod : (len - t0.message_len) % 2 ^ 32 = len - t0.message_len := Nat.mod_eq_of_lt h32
  rw [if_neg (by rw [hfile]; simp), if_neg (by omega), if_pos hctl, if_neg (by omega), hmod]
  have hT : ∀ b : Bool,
      (if b = true then
          E.rspamd_protocol_handle_control { t0 with msg_start := start, msg_len := len }
        else { t0 with msg_start := start, msg_len := len }).msg_start = start ∧
      (if b = true then
          E.rspamd_protocol_handle_control { t0 with msg_start := start, msg_len := len }
        else { t0 with msg_start := start, msg_len := len }).msg_len = len := by
    intro b
    cases b
    · exact ⟨rfl, rfl⟩
    · exact ⟨(hframe _).1, (hframe _).2⟩
  by_cases hc : len - t0.message_len > 0
  · rw [if_pos hc]
    refine ⟨_, rfl, ?_, ?_⟩
    · dsimp only
      rw [(hT _).1]
    · dsimp only
      rw [(hT _).2]
      have : len + 2 ^ 64 - (len - t0.message_len) = t0.message_len + 2 ^ 64 := by omega
      rw [this, Nat.add_mod_right]
      exact Nat.mod_eq_of_lt (by omega)
  · rw [if_neg hc]
    refine ⟨_, rfl, ?_, ?_⟩
    · show start = start + (len - t0.message_len)
      omega
    · show len = t0.message_len
      omega

/-- C21, the code at an input with a control chunk of `2 ^ 32` bytes or more.
`control_len` is a `guint` while `len` is a `gsize`. With `HAS_CONTROL` set and
`message_len = 1`: for `len = 2 ^ 32 + 1` the difference is truncated to 0,
the call returns TRUE and leaves `msg.start = start` and
`msg.len = 2 ^ 32 + 1`; for `len = 2 ^ 32 + 6` it is truncated to 5 and the
call leaves `msg.start = start + 5` and `msg.len = 2 ^ 32 + 1`. In both the
body is not the last `message_len` bytes. -/
theorem load_message_truncates_control_len :
    rspamd_task_load_message sampleLoadConsts sampleLoadEnv
        ⟨2, 0, 0, 1, none, ()⟩ none 1000 4294967297
      = some (true, ⟨2, 1000, 4294967297, 1, none, ()⟩) ∧
    rspamd_task_load_message sampleLoadConsts sampleLoadEnv
        ⟨2, 0, 0, 1, none, ()⟩ none 1000 4294967302
      = some (true, ⟨2, 1005, 4294967297, 1, none, ()⟩) := by
  decide

/-! ## What `rspamd_task_re_cache_add` returns (C22) -/

theorem cacheAfter_snoc (NO_VALUE : Nat) (adds : List (String × Nat)) (a : String × Nat) :
    cacheAfter NO_VALUE (adds ++ [a])
      = (rspamd_task_re_cache_add NO_VALUE (cacheAfter NO_VALUE adds) a.1 a.2).2 := by
  simp [cacheAfter, List.foldl_append]

theorem lastAdded_snoc (adds : List (String × Nat)) (a : String × Nat) (re : String) :
    lastAdded (adds ++ [a]) re = if a.1 = re then some a.2 else lastAdded adds re := by
  simp [lastAdded, List.foldl_append]

theorem re_cache_check_other_key (NO_VALUE : Nat) (re_cache : ReCache) (re : String)
    (value : Nat) (other : String) (h : other ≠ re) :
    rspamd_task_re_cache_check NO_VALUE
        (rspamd_task_re_cache_add NO_VALUE re_cache re value).2 other
      = rspamd_task_re_cache_check NO_VALUE re_cache other := by
  simp [rspamd_task_re_cache_check, rspamd_task_re_cache_add, g_hash_table_insert, h]

theorem re_cache_check_same_key (NO_VALUE : Nat) (re_cache : ReCache) (re : String)
    (value : Nat) :
    rspamd_task_re_cache_check NO_VALUE
        (rspamd_task_re_cache_add NO_VALUE re_cache re value).2 re
      = value % 2 ^ 31 := by
  have h := re_cache_stored_ne_zero value
  have hv := re_cache_value_stored value
  simp only [rspamd_task_re_cache_check, rspamd_task_re_cache_add, g_hash_table_insert,
    if_true, ne_eq]
  rw [if_pos h]
  exact hv

theorem re_cache_check_history (NO_VALUE : Nat) (adds : List (String × Nat)) (re : String) :
    rspamd_task_re_cache_check NO_VALUE (cacheAfter NO_VALUE adds) re
      = match lastAdded adds re with
        | none => NO_VALUE
        | some w => w % 2 ^ 31 := by
  induction adds using List.reverseRecOn with
  | nil => rfl
  | append_singleton l a ih =>
    rw [cacheAfter_snoc, lastAdded_snoc]
    by_cases h : a.1 = re
    · rw [if_pos h, ← h]
      exact re_cache_check_same_key NO_VALUE _ a.1 a.2
    · rw [if_neg h, re_cache_check_other_key NO_VALUE _ a.1 a.2 re (fun e => h e.symm)]
      exact ih

/-- C22. For every cache, key `re` and value `v`,
`rspamd_task_re_cache_add (task, re, v)` returns what
`rspamd_task_re_cache_check (task, re)` returns right before the call, and it
does not change what the check returns for any other key. For the cache of a
task after any sequence of adds since `rspamd_task_new`, that value is
`RSPAMD_TASK_CACHE_NO_VALUE` if `re` was never added, and otherwise the low 31
bits of the value last added for `re`. -/
theorem re_cache_add_returns_previous (NO_VALUE : Nat) :
    (∀ (re_cache : ReCache) (re : String) (v : Nat),
      (rspamd_task_re_cache_add NO_VALUE re_cache re v).1
        = rspamd_task_re_cache_check NO_VALUE re_cache re ∧
      ∀ other : String, other ≠ re →
        rspamd_task_re_cache_check NO_VALUE
            (rspamd_task_re_cache_add NO_VALUE re_cache re v).2 other
          = rspamd_task_re_cache_check NO_VALUE re_cache other) ∧
    (∀ (adds : List (String × Nat)) (re : String) (v : Nat),
      (rspamd_task_re_cache_add NO_VALUE (cacheAfter NO_VALUE adds) re v).1
        = match lastAdded adds re with
          | none => NO_VALUE
          | some w => w % 2 ^ 31) := by
  refine ⟨fun re_cache re v => ⟨rfl, fun other h => ?_⟩, fun adds re v => ?_⟩
  · exact re_cache_check_other_key NO_VALUE re_cache re v other h
  · exact re_cache_check_history NO_VALUE adds re

/-- Witness of C22, with `RSPAMD_TASK_CACHE_NO_VALUE` taken as `(guint)-1`:
after the adds of `2 ^ 31 + 5` and then 9 for the key `a`, an add for `a`
returns 9 and leaves the key `b` without a value; an add for `b` returns
`RSPAMD_TASK_CACHE_NO_VALUE`. -/
theorem re_cache_add_returns_previous_witness :
    (rspamd_task_re_cache_add 4294967295
        (cacheAfter 4294967295 [("a", 2147483653), ("a", 9)]) "a" 7).1 = 9 ∧
    (rspamd_task_re_cache_add 4294967295
        (cacheAfter 4294967295 [("a", 2147483653), ("a", 9)]) "b" 7).1 = 4294967295 ∧
    "b" ≠ "a" ∧
    rspamd_task_re_cache_check 4294967295
        (rspamd_task_re_cache_add 4294967295
          (cacheAfter 4294967295 [("a", 2147483653), ("a", 9)]) "a" 7).2 "b"
      = rspamd_task_re_cache_check 4294967295
          (cacheAfter 4294967295 [("a", 2147483653), ("a", 9)]) "b" :=
  ⟨(re_cache_add_returns_previous 4294967295).2 [("a", 2147483653), ("a", 9)] "a" 7,
    (re_cache_add_returns_previous 4294967295).2 [("a", 2147483653), ("a", 9)] "b" 7,
    by decide,
    ((re_cache_add_returns_previous 4294967295).1
      (cacheAfter 4294967295 [("a", 2147483653), ("a", 9)]) "a" 7).2 "b" (by decide)⟩

/-! ## Reads of `rspamd_log_helper_read` (C23) -/

theorem resultsLoop_guint32 (symbol_by_id : Nat → String) (sm : List Nat) :
    ∀ (k i : Nat) (out : String) (reads : List Nat), 4 + 4 * (i + k) ≤ sm.length →
      ∃ line, resultsLoop guint32Layout symbol_by_id sm k i out reads
        = some (line, reads ++ (List.range' i k).map (fun j => 4 + 4 * j)) := by
  intro k
  induction k with
  | zero =>
    intro i out reads _
    exact ⟨out, by simp [resultsLoop]⟩
  | succ k ih =>
    intro i out reads h
    have hload : load sm (4 + 4 * i) 4
        = some (le_value ((sm.drop (4 + 4 * i)).take 4)) := by
      unfold load
      rw [if_pos (by omega)]
    obtain ⟨line, hline⟩ := ih (i + 1)
      (out ++ (if i = 0 then "" else ", ")
        ++ symbol_by_id (le_value ((sm.drop (4 + 4 * i)).take 4)))
      (reads ++ [4 + 4 * i]) (by omega)
    refine ⟨line, ?_⟩
    show (match load sm (4 + 4 * i) 4 with
      | none => none
      | some id =>
        resultsLoop guint32Layout symbol_by_id sm k (i + 1)
          (out ++ (if i = 0 then "" else ", ") ++ symbol_by_id id)
          (reads ++ [4 + 4 * i])) = _
    rw [hload]
    show resultsLoop guint32Layout symbol_by_id sm k (i + 1) _ _ = _
    rw [hline, List.range'_succ, List.map_cons, List.append_assoc]
    rfl

/-- C23. For every read of `r` bytes with `4 ≤ r ≤ 1024` into the buffer of
1024 bytes, `rspamd_log_helper_read` makes no load outside the memory it reads
from, and with `n` the count announced in the first 4 bytes: it processes the
message (logs the line of symbols) exactly when `n = (r - 4) div 4`, otherwise
it reads no result; when it processes the message it reads the `n` ids
`results[0..n-1]`, at the offsets `4 + 4 * i`, and each of them ends within
the `r` bytes that were received. -/
theorem log_helper_reads_within_message (symbol_by_id : Nat → String) (r : Nat)
    (buf : List Nat) (h4 : 4 ≤ r) (h1024 : r ≤ 1024) (hbuf : buf.length = 1024) :
    ∃ n o, load buf 0 4 = some n ∧
      rspamd_log_helper_read guint32Layout symbol_by_id (r : Int) buf = some o ∧
      ((∃ out, o.line = .got_log_line out) ↔ n = (r - 4) / 4) ∧
      (n ≠ (r - 4) / 4 → o.reads = []) ∧
      (n = (r - 4) / 4 → o.reads = (List.range n).map (fun i => 4 + 4 * i)) ∧
      ∀ off ∈ o.reads, off + 4 ≤ r := by
  have hload : load buf 0 4 = some (le_value ((buf.drop 0).take 4)) := by
    unfold load
    rw [if_pos (by omega)]
  have havail : ((r : Int).toNat + 2 ^ 64 - 4) % 2 ^ 64 / 4 = (r - 4) / 4 := by
    rw [Int.toNat_ofNat]
    have : r + 2 ^ 64 - 4 = (r - 4) + 2 ^ 64 := by omega
    rw [this, Nat.add_mod_right, Nat.mod_eq_of_lt (by omega)]
  have hge : (r : Int) ≥ ((guint32Layout.sizeof_sum : Nat) : Int) := by
    show ((4 : Nat) : Int) ≤ (r : Int)
    exact_mod_cast h4
  refine ⟨le_value ((buf.drop 0).take 4), ?_⟩
  unfold rspamd_log_helper_read
  rw [if_pos hge, hload]
  dsimp only
  rw [havail]
  by_cases hn : le_value ((buf.drop 0).take 4) = (r - 4) / 4
  · have hsm : (buf.take (r : Int).toNat).length = r := by
      rw [Int.toNat_ofNat, List.length_take, hbuf]
      omega
    obtain ⟨line, hline⟩ := resultsLoop_guint32 symbol_by_id (buf.take (r : Int).toNat)
      (le_value ((buf.drop 0).take 4)) 0 "" [] (by rw [hsm, hn]; omega)
    rw [if_neg (by simpa using hn), hline]
    refine ⟨_, rfl, rfl, ⟨fun _ => hn, fun _ => ⟨line, rfl⟩⟩, fun h => absurd hn h, fun _ => ?_, ?_⟩
    · show [] ++ _ = _
      rw [List.nil_append, List.range_eq_range']
    · intro off hoff
      have hoff2 : off ∈ (List.range' 0 (le_value ((buf.drop 0).take 4))).map
          (fun j => 4 + 4 * j) := hoff
      rw [List.mem_map] at hoff2
      obtain ⟨j, hj, rfl⟩ := hoff2
      rw [List.mem_range'_1] at hj
      rw [hn] at hj
      omega
  · rw [if_pos hn]
    refine ⟨_, rfl, rfl, ⟨fun h => ?_, fun h => absurd h hn⟩, fun _ => rfl, fun h => absurd h hn, ?_⟩
    · obtain ⟨out, hout⟩ := h
      exact absurd hout (by simp)
    · intro off hoff
      exact absurd hoff (List.not_mem_nil off)

theorem sampleLogBuf_length : sampleLogBuf.length = 1024 := by
  simp only [sampleLogBuf, List.length_append, List.length_replicate, List.length_cons,
    List.length_nil]

/-- Witness of C23: 12 bytes received that announce 2 ids: the ids 5 and 7
are read at the offsets 4 and 8, within the 12 bytes. -/
theorem log_helper_reads_within_message_witness :
    ∃ n o, load sampleLogBuf 0 4 = some n ∧
      rspamd_log_helper_read guint32Layout (fun id => toString id) ((12 : Nat) : Int)
        sampleLogBuf = some o ∧
      ((∃ out, o.line = .got_log_line out) ↔ n = (12 - 4) / 4) ∧
      (n ≠ (12 - 4) / 4 → o.reads = []) ∧
      (n = (12 - 4) / 4 → o.reads = (List.range n).map (fun i => 4 + 4 * i)) ∧
      ∀ off ∈ o.reads, off + 4 ≤ 12 :=
  log_helper_reads_within_message (fun id => toString id) 12 sampleLogBuf
    (by decide) (by decide) sampleLogBuf_length

/-! ## The checkpoint and the next call (C11) -/

/-- Post-load rejects dependencies with a cycle. -/
theorem post_load_rejects_cycle : post_load cyclicItems (fun _ => 0) = none := by
  decide

end Rspamd
